import Mathlib

/-!
# Verification of the SaleaeSocketTransportHLA transport-and-dispatch layer

A shallow embedding, in Lean, of the core of the repository:

* the `TransportData` codec and the JSON wire format (`responsehandler.py`),
  together with models of Python's `json.dumps` / `json.loads` (numbers are
  modelled as integers: the analyzer traffic carries only integral data, so
  fractional and exponent syntax is out of the modelled fragment) and of
  UTF-8 encoding/decoding;
* the newline-delimited frame reader `rx_data_until_newline`
  (`socketclient.py`, `socketsink.py`, `socketserver.py`,
  `saleaesocketsource.py` — the four copies are textually identical in the
  parts modelled here);
* the `DefaultResponder` classifier and decoder dispatch
  (`responsehandler.py`), and the parallel `ResponseHandler` of
  `socketclient.py`;
* the response-selection step of `SocketTransport.decode`
  (`socketserver.py`, likewise `SocketSource.decode` of
  `saleaesocketsource.py`).

Python strings are modelled as lists of Unicode scalar values, `bytes` as
lists of byte values, dictionaries as insertion-ordered association lists,
and in-place mutation of shared dictionaries is made explicit by threading
the updated value to every holder of a reference to the mutated object.
-/

namespace Saleae

/-- Python `str` values, modelled as lists of Unicode scalar values. -/
abbrev Str := List Char

/-- The character list of a Lean string literal, used to transcribe the
Python string literals of the source. -/
def str (s : String) : Str := s.data

/-- The newline character on which the wire protocol frames messages. -/
def nl : Char := '\n'

/-- The Python exceptions the embedded code paths can raise. -/
inductive PyErr where
  | typeError
  | keyError
  | indexError
  | jsonDecodeError
  | unicodeDecodeError
  | valueError
deriving DecidableEq

/-! ## UTF-8

`str.encode('utf-8')` and `bytes.decode('utf-8')` as used by
`TransportData` and by the frame readers. -/

/-- UTF-8 encoding of a single scalar value. -/
def utf8EncodeChar (c : Char) : List Nat :=
  let n := c.toNat
  if n < 0x80 then [n]
  else if n < 0x800 then [0xC0 + n / 0x40, 0x80 + n % 0x40]
  else if n < 0x10000 then
    [0xE0 + n / 0x1000, 0x80 + n / 0x40 % 0x40, 0x80 + n % 0x40]
  else
    [0xF0 + n / 0x40000, 0x80 + n / 0x1000 % 0x40, 0x80 + n / 0x40 % 0x40,
      0x80 + n % 0x40]

/-- `str.encode('utf-8')`. -/
def utf8Encode (s : Str) : List Nat := (s.map utf8EncodeChar).flatten

/-- A scalar value from a code point; surrogates and out-of-range values are
refused, exactly the code points a strict UTF-8 decoder never produces. -/
def charOfNat? (n : Nat) : Option Char :=
  if h : n.isValidChar then some (Char.ofNatAux n h) else none

/-- A UTF-8 continuation byte. -/
def contB (b : Nat) : Prop := 0x80 ≤ b ∧ b < 0xC0

instance : DecidablePred contB := fun b => by unfold contB; infer_instance

/-- Decode one scalar value from the head of a byte list, returning the
remaining bytes; `none` models a `UnicodeDecodeError` (bad leading byte, bad
continuation byte, overlong form, surrogate, or out-of-range value). -/
def utf8DecodeStep (b : Nat) (bs : List Nat) : Option (Char × List Nat) :=
  if b < 0x80 then (charOfNat? b).map (· , bs)
  else if b < 0xE0 then
    match bs with
    | b2 :: bs2 =>
      if 0xC2 ≤ b ∧ contB b2 then
        (charOfNat? ((b - 0xC0) * 0x40 + (b2 - 0x80))).map (· , bs2)
      else none
    | [] => none
  else if b < 0xF0 then
    match bs with
    | b2 :: b3 :: bs3 =>
      if contB b2 ∧ contB b3 ∧
          0x800 ≤ (b - 0xE0) * 0x1000 + (b2 - 0x80) * 0x40 + (b3 - 0x80) then
        (charOfNat? ((b - 0xE0) * 0x1000 + (b2 - 0x80) * 0x40 + (b3 - 0x80))).map
          (· , bs3)
      else none
    | _ => none
  else if b < 0xF5 then
    match bs with
    | b2 :: b3 :: b4 :: bs4 =>
      if contB b2 ∧ contB b3 ∧ contB b4 ∧
          0x10000 ≤ (b - 0xF0) * 0x40000 + (b2 - 0x80) * 0x1000 +
            (b3 - 0x80) * 0x40 + (b4 - 0x80) then
        (charOfNat? ((b - 0xF0) * 0x40000 + (b2 - 0x80) * 0x1000 +
          (b3 - 0x80) * 0x40 + (b4 - 0x80))).map (· , bs4)
      else none
    | _ => none
  else none

theorem map_pair_eq {o : Option Char} {t : List Nat} {c : Char} {rest : List Nat}
    (h : o.map (· , t) = some (c, rest)) : rest = t ∧ o = some c := by
  cases o <;> simp_all

set_option maxRecDepth 8192 in
theorem utf8DecodeStep_length {b : Nat} {bs : List Nat} {c : Char} {rest : List Nat}
    (h : utf8DecodeStep b bs = some (c, rest)) : rest.length ≤ bs.length := by
  unfold utf8DecodeStep at h
  repeat' split at h
  all_goals try exact Option.noConfusion h
  all_goals rw [(map_pair_eq h).1]
  all_goals simp
  all_goals omega

/-- Decode a byte list one scalar at a time; the first argument is
recursion fuel (the byte count always suffices, each step consuming at
least one byte). -/
def utf8DecodeAux : Nat → List Nat → Option Str
  | _, [] => some []
  | 0, _ :: _ => none
  | fuel + 1, b :: bs =>
    match utf8DecodeStep b bs with
    | some (c, rest) => (utf8DecodeAux fuel rest).map (c :: ·)
    | none => none

/-- `bytes.decode('utf-8')`: strict decoding of a whole byte list. -/
def utf8Decode (bs : List Nat) : Option Str := utf8DecodeAux bs.length bs

theorem utf8DecodeAux_fuel : ∀ (f g : Nat) (bs : List Nat), bs.length ≤ f →
    bs.length ≤ g → utf8DecodeAux f bs = utf8DecodeAux g bs := by
  intro f
  induction f with
  | zero =>
    intro g bs h1 _
    match bs, List.eq_nil_of_length_eq_zero (Nat.le_zero.mp h1) with
    | [], _ => cases g <;> rfl
  | succ f ih =>
    intro g bs h1 h2
    match bs with
    | [] => cases g <;> rfl
    | b :: bs =>
      match g, h2 with
      | g + 1, h2 =>
        show (match utf8DecodeStep b bs with
          | some (c, rest) => (utf8DecodeAux f rest).map (c :: ·)
          | none => none) =
          (match utf8DecodeStep b bs with
          | some (c, rest) => (utf8DecodeAux g rest).map (c :: ·)
          | none => none)
        rcases hx : utf8DecodeStep b bs with _ | ⟨c, rest⟩
        · simp only [hx]
        · have hr := utf8DecodeStep_length hx
          simp only [List.length_cons] at h1 h2
          simp only [hx]
          rw [ih g rest (by omega) (by omega)]

theorem utf8Decode_cons (b : Nat) (bs : List Nat) :
    utf8Decode (b :: bs) =
      match utf8DecodeStep b bs with
      | some (c, rest) => (utf8Decode rest).map (c :: ·)
      | none => none := by
  show utf8DecodeAux (bs.length + 1) (b :: bs) = _
  show (match utf8DecodeStep b bs with
    | some (c, rest) => (utf8DecodeAux bs.length rest).map (c :: ·)
    | none => none) = _
  rcases hx : utf8DecodeStep b bs with _ | ⟨c, rest⟩
  · simp only [hx]
  · have hr := utf8DecodeStep_length hx
    simp only [hx]
    rw [utf8DecodeAux_fuel bs.length rest.length rest hr (Nat.le_refl _)]
    rfl

theorem charOfNat?_toNat (c : Char) : charOfNat? c.toNat = some c := by
  have hv : c.toNat.isValidChar := c.valid
  have h2 : Char.ofNat c.toNat = Char.ofNatAux c.toNat hv := by
    simp [Char.ofNat, hv]
  simp only [charOfNat?, dif_pos hv, ← h2, Char.ofNat_toNat]

/-- Bounds on a scalar value, extracted from `Char` validity. -/
theorem char_toNat_bounds (c : Char) :
    c.toNat < 0x110000 ∧ (c.toNat < 0xD800 ∨ 0xDFFF < c.toNat) := by
  have hv : c.toNat.isValidChar := c.valid
  rcases hv with h | ⟨h1, h2⟩
  · exact ⟨by omega, Or.inl h⟩
  · exact ⟨h2, Or.inr h1⟩

theorem utf8DecodeStep_encodeChar (c : Char) (bs : List Nat) :
    ∃ b tail, utf8EncodeChar c = b :: tail ∧
      utf8DecodeStep b (tail ++ bs) = some (c, bs) := by
  obtain ⟨hub, hsur⟩ := char_toNat_bounds c
  by_cases h1 : c.toNat < 0x80
  · refine ⟨c.toNat, [], by simp [utf8EncodeChar, h1], ?_⟩
    simp only [utf8DecodeStep, if_pos h1, List.nil_append, charOfNat?_toNat]
    rfl
  by_cases h2 : c.toNat < 0x800
  · refine ⟨0xC0 + c.toNat / 0x40, [0x80 + c.toNat % 0x40],
      by simp [utf8EncodeChar, h1, h2], ?_⟩
    have e1 : ¬ (0xC0 + c.toNat / 0x40 < 0x80) := by omega
    have e2 : 0xC0 + c.toNat / 0x40 < 0xE0 := by omega
    have e3 : 0xC2 ≤ 0xC0 + c.toNat / 0x40 ∧ contB (0x80 + c.toNat % 0x40) := by
      unfold contB; omega
    have e4 : (0xC0 + c.toNat / 0x40 - 0xC0) * 0x40 + (0x80 + c.toNat % 0x40 - 0x80)
        = c.toNat := by omega
    simp only [utf8DecodeStep, if_neg e1, if_pos e2, List.cons_append,
      List.nil_append, if_pos e3, e4, charOfNat?_toNat]
    rfl
  by_cases h3 : c.toNat < 0x10000
  · refine ⟨0xE0 + c.toNat / 0x1000, [0x80 + c.toNat / 0x40 % 0x40, 0x80 + c.toNat % 0x40],
      by simp [utf8EncodeChar, h1, h2, h3], ?_⟩
    have e1 : ¬ (0xE0 + c.toNat / 0x1000 < 0x80) := by omega
    have e2 : ¬ (0xE0 + c.toNat / 0x1000 < 0xE0) := by omega
    have e3 : 0xE0 + c.toNat / 0x1000 < 0xF0 := by omega
    have e4 : (0xE0 + c.toNat / 0x1000 - 0xE0) * 0x1000 +
        (0x80 + c.toNat / 0x40 % 0x40 - 0x80) * 0x40 +
        (0x80 + c.toNat % 0x40 - 0x80) = c.toNat := by omega
    have e5 : contB (0x80 + c.toNat / 0x40 % 0x40) ∧ contB (0x80 + c.toNat % 0x40) ∧
        0x800 ≤ c.toNat := by unfold contB; omega
    simp only [utf8DecodeStep, if_neg e1, if_neg e2, if_pos e3, List.cons_append,
      List.nil_append, e4, if_pos e5, charOfNat?_toNat]
    rfl
  · refine ⟨0xF0 + c.toNat / 0x40000, [0x80 + c.toNat / 0x1000 % 0x40,
      0x80 + c.toNat / 0x40 % 0x40, 0x80 + c.toNat % 0x40],
      by simp [utf8EncodeChar, h1, h2, h3], ?_⟩
    have e1 : ¬ (0xF0 + c.toNat / 0x40000 < 0x80) := by omega
    have e2 : ¬ (0xF0 + c.toNat / 0x40000 < 0xE0) := by omega
    have e3 : ¬ (0xF0 + c.toNat / 0x40000 < 0xF0) := by omega
    have e4 : 0xF0 + c.toNat / 0x40000 < 0xF5 := by omega
    have e6 : (0xF0 + c.toNat / 0x40000 - 0xF0) * 0x40000 +
        (0x80 + c.toNat / 0x1000 % 0x40 - 0x80) * 0x1000 +
        (0x80 + c.toNat / 0x40 % 0x40 - 0x80) * 0x40 +
        (0x80 + c.toNat % 0x40 - 0x80) = c.toNat := by omega
    have e5 : contB (0x80 + c.toNat / 0x1000 % 0x40) ∧
        contB (0x80 + c.toNat / 0x40 % 0x40) ∧ contB (0x80 + c.toNat % 0x40) ∧
        0x10000 ≤ c.toNat := by unfold contB; omega
    simp only [utf8DecodeStep, if_neg e1, if_neg e2, if_neg e3, if_pos e4,
      List.cons_append, List.nil_append, e6, if_pos e5, charOfNat?_toNat]
    rfl

theorem utf8Decode_encodeChar_append (c : Char) (bs : List Nat) :
    utf8Decode (utf8EncodeChar c ++ bs) = (utf8Decode bs).map (c :: ·) := by
  obtain ⟨b, tail, henc, hstep⟩ := utf8DecodeStep_encodeChar c bs
  rw [henc, List.cons_append, utf8Decode_cons, hstep]

theorem utf8Decode_append_encode (s : Str) (bs : List Nat) :
    utf8Decode (utf8Encode s ++ bs) = (utf8Decode bs).map (s ++ ·) := by
  induction s with
  | nil =>
    simp only [utf8Encode, List.map_nil, List.flatten_nil, List.nil_append]
    cases utf8Decode bs <;> rfl
  | cons c cs ih =>
    have h : utf8Encode (c :: cs) = utf8EncodeChar c ++ utf8Encode cs := by
      simp [utf8Encode]
    rw [h, List.append_assoc, utf8Decode_encodeChar_append, ih]
    cases utf8Decode bs <;> rfl

/-- Decoding inverts encoding: the view consistency of `TransportData`
rests on this. -/
theorem utf8Decode_utf8Encode (s : Str) : utf8Decode (utf8Encode s) = some s := by
  have h := utf8Decode_append_encode s []
  simpa [utf8Decode, utf8DecodeAux] using h

/-! ## JSON values

Python `json` structured values, in the integral fragment the analyzer
traffic uses: `None`, `bool`, `int`, `str`, `list`, `dict` (insertion
ordered, string keys). -/

inductive JVal : Type where
  | null : JVal
  | bool (b : Bool) : JVal
  | int (n : Int) : JVal
  | jstr (s : Str) : JVal
  | arr (xs : List JVal) : JVal
  | obj (kvs : List (Str × JVal)) : JVal

mutual

/-- Python `==` on JSON values (within this fragment, structural). -/
def JVal.beq : JVal → JVal → Bool
  | .null, .null => true
  | .bool a, .bool b => a = b
  | .int a, .int b => a = b
  | .jstr a, .jstr b => a = b
  | .arr a, .arr b => JVal.beqList a b
  | .obj a, .obj b => JVal.beqObj a b
  | _, _ => false
termination_by structural v => v

def JVal.beqList : List JVal → List JVal → Bool
  | [], [] => true
  | x :: xs, y :: ys => JVal.beq x y && JVal.beqList xs ys
  | _, _ => false
termination_by structural xs => xs

def JVal.beqObj : List (Str × JVal) → List (Str × JVal) → Bool
  | [], [] => true
  | (k, v) :: xs, (k2, v2) :: ys => k = k2 && JVal.beq v v2 && JVal.beqObj xs ys
  | _, _ => false
termination_by structural kvs => kvs

end

/-- `d[k] = v` on a Python dict: replace in place if the key exists
(keeping its position), append otherwise.  `dict(pairs)` folds this over
the pair list, which is also how `json.loads` builds objects. -/
def dictInsert : List (Str × JVal) → Str → JVal → List (Str × JVal)
  | [], k, v => [(k, v)]
  | (k2, v2) :: kvs, k, v =>
    if k2 = k then (k2, v) :: kvs else (k2, v2) :: dictInsert kvs k v

/-- `dict(pairs)`. -/
def buildDict (pairs : List (Str × JVal)) : List (Str × JVal) :=
  pairs.foldl (fun d kv => dictInsert d kv.1 kv.2) []

/-- No repeated keys in a key list. -/
def nodupKeys : List Str → Bool
  | [] => true
  | k :: ks => !(decide (k ∈ ks)) && nodupKeys ks

mutual

/-- A structured value that is the image of an actual Python object tree:
every dict has pairwise distinct keys (a Python dict cannot do otherwise). -/
def wfJ : JVal → Bool
  | .null => true
  | .bool _ => true
  | .int _ => true
  | .jstr _ => true
  | .arr xs => wfArr xs
  | .obj kvs => nodupKeys (kvs.map Prod.fst) && wfObj kvs
termination_by structural v => v

def wfArr : List JVal → Bool
  | [] => true
  | x :: xs => wfJ x && wfArr xs
termination_by structural xs => xs

def wfObj : List (Str × JVal) → Bool
  | [] => true
  | (_, v) :: kvs => wfJ v && wfObj kvs
termination_by structural kvs => kvs

end

/-! ## `json.dumps`

Default options: separators `', '` and `': '`, `ensure_ascii=True`, ints
rendered in decimal. -/

def digitChar : Nat → Char
  | 0 => '0' | 1 => '1' | 2 => '2' | 3 => '3' | 4 => '4'
  | 5 => '5' | 6 => '6' | 7 => '7' | 8 => '8' | _ => '9'

def hexChar : Nat → Char
  | 0 => '0' | 1 => '1' | 2 => '2' | 3 => '3' | 4 => '4'
  | 5 => '5' | 6 => '6' | 7 => '7' | 8 => '8' | 9 => '9'
  | 10 => 'a' | 11 => 'b' | 12 => 'c' | 13 => 'd' | 14 => 'e' | _ => 'f'

/-- Decimal digits of `n`, most significant first; the first argument is
recursion fuel (`n` itself always suffices). -/
def natToDigitsAux : Nat → Nat → Str
  | 0, n => [digitChar n]
  | fuel + 1, n =>
    if n < 10 then [digitChar n]
    else natToDigitsAux fuel (n / 10) ++ [digitChar (n % 10)]

def natToDigits (n : Nat) : Str := natToDigitsAux n n

/-- Python `repr` of an `int`, which is what `json.dumps` emits. -/
def intRepr : Int → Str
  | .ofNat n => natToDigits n
  | .negSucc m => '-' :: natToDigits (m + 1)

/-- Four lowercase hex digits, as in a `\uXXXX` escape. -/
def hex4 (n : Nat) : Str :=
  [hexChar (n / 0x1000 % 16), hexChar (n / 0x100 % 16), hexChar (n / 16 % 16),
    hexChar (n % 16)]

/-- The `ensure_ascii` escaping of one character: `"` and `\` and the five
short control escapes, printable ASCII kept literal, everything else as
`\uXXXX` (a surrogate pair for astral characters). -/
def escapeChar (c : Char) : Str :=
  if c = '"' then ['\\', '"']
  else if c = '\\' then ['\\', '\\']
  else if c = '\n' then ['\\', 'n']
  else if c = '\r' then ['\\', 'r']
  else if c = '\t' then ['\\', 't']
  else if c.toNat = 0x8 then ['\\', 'b']
  else if c.toNat = 0xC then ['\\', 'f']
  else if 0x20 ≤ c.toNat ∧ c.toNat ≤ 0x7E then [c]
  else if c.toNat < 0x10000 then '\\' :: 'u' :: hex4 c.toNat
  else
    '\\' :: 'u' :: hex4 (0xD800 + (c.toNat - 0x10000) / 0x400) ++
      '\\' :: 'u' :: hex4 (0xDC00 + (c.toNat - 0x10000) % 0x400)

/-- A JSON string literal. -/
def dumpStr (s : Str) : Str := '"' :: (s.map escapeChar).flatten ++ ['"']

mutual

/-- `json.dumps` with default options. -/
def dumps : JVal → Str
  | .null => str "null"
  | .bool true => str "true"
  | .bool false => str "false"
  | .int n => intRepr n
  | .jstr s => dumpStr s
  | .arr xs => '[' :: dumpsArr xs ++ [']']
  | .obj kvs => '{' :: dumpsObj kvs ++ ['}']
termination_by structural v => v

def dumpsArr : List JVal → Str
  | [] => []
  | [x] => dumps x
  | x :: xs => dumps x ++ ',' :: ' ' :: dumpsArr xs
termination_by structural xs => xs

def dumpsObj : List (Str × JVal) → Str
  | [] => []
  | [(k, v)] => dumpStr k ++ ':' :: ' ' :: dumps v
  | (k, v) :: kvs => dumpStr k ++ ':' :: ' ' :: dumps v ++ ',' :: ' ' :: dumpsObj kvs
termination_by structural kvs => kvs

end

mutual

/-- Recursion fuel sufficient for the parser to read back `dumps v`
(bounded by the length of the printed form). -/
def jfuel : JVal → Nat
  | .null => 1
  | .bool _ => 1
  | .int _ => 1
  | .jstr s => s.length + 2
  | .arr xs => 2 + jfuelArr xs
  | .obj kvs => 2 + jfuelObj kvs
termination_by structural v => v

def jfuelArr : List JVal → Nat
  | [] => 0
  | x :: xs => jfuel x + jfuelArr xs
termination_by structural xs => xs

def jfuelObj : List (Str × JVal) → Nat
  | [] => 0
  | (k, v) :: kvs => k.length + jfuel v + 2 + jfuelObj kvs
termination_by structural kvs => kvs

end

/-! ## `json.loads`

A recursive-descent reader of the same fragment, fuelled (the input length
plus one always suffices).  Deviations from CPython, all outside the
modelled fragment and all on the error side: fractional and exponent
number syntax is refused rather than read as floats, and a `\u` escape
denoting a lone surrogate is refused rather than kept. -/

def isWsChar (c : Char) : Bool := c = ' ' || c = '\t' || c = '\n' || c = '\r'

def skipWs : Str → Str
  | [] => []
  | c :: cs => if isWsChar c then skipWs cs else c :: cs

def isDigit (c : Char) : Bool := '0' ≤ c && c ≤ '9'

/-- Greedily read further decimal digits onto an accumulated value. -/
def parseDigitsAux : Str → Nat → Nat × Str
  | [], acc => (acc, [])
  | c :: cs, acc =>
    if isDigit c then parseDigitsAux cs (acc * 10 + (c.toNat - 48)) else (acc, c :: cs)

/-- After an integer token, fractional or exponent syntax would make a
float, which is outside the modelled fragment. -/
def checkNumTail (s : Str) : Except PyErr Unit :=
  match s with
  | c :: _ => if c = '.' ∨ c = 'e' ∨ c = 'E' then .error .jsonDecodeError else .ok ()
  | [] => .ok ()

/-- An unsigned integer token (`0 | [1-9][0-9]*`; a stray leading zero is
returned as the value `0`, after which the caller rejects the next digit,
matching the CPython scanner's behaviour on such input). -/
def parseUIntTok : Str → Except PyErr (Nat × Str)
  | c :: cs =>
    if c = '0' then (checkNumTail cs).map (fun _ => (0, cs))
    else if isDigit c then
      let p := parseDigitsAux cs (c.toNat - 48)
      (checkNumTail p.2).map (fun _ => (p.1, p.2))
    else .error .jsonDecodeError
  | [] => .error .jsonDecodeError

def hexVal (c : Char) : Option Nat :=
  if '0' ≤ c && c ≤ '9' then some (c.toNat - 48)
  else if 'a' ≤ c && c ≤ 'f' then some (c.toNat - 87)
  else if 'A' ≤ c && c ≤ 'F' then some (c.toNat - 55)
  else none

def parseHex4 : Str → Except PyErr (Nat × Str)
  | c1 :: c2 :: c3 :: c4 :: r =>
    match hexVal c1, hexVal c2, hexVal c3, hexVal c4 with
    | some a, some b, some c, some d =>
      .ok (a * 0x1000 + b * 0x100 + c * 16 + d, r)
    | _, _, _, _ => .error .jsonDecodeError
  | _ => .error .jsonDecodeError

theorem except_bind_ok {e a : Type} (x : a) (f : a → Except e (Char × Str)) :
    (Except.ok x : Except e a).bind f = f x := rfl

/-- Turn an optional scalar value into a parse result. -/
def charOption : Option Char → Str → Except PyErr (Char × Str)
  | some c, r => .ok (c, r)
  | none, _ => .error .jsonDecodeError

/-- The second half of a surrogate-pair escape: expect `\uXXXX` with a low
surrogate and combine it with the high surrogate `n`. -/
def unescapePair (n : Nat) (r3 : Str) : Except PyErr (Char × Str) :=
  match r3 with
  | '\\' :: 'u' :: r4 =>
    (parseHex4 r4).bind (fun q =>
      if 0xDC00 ≤ q.1 ∧ q.1 < 0xE000 then
        charOption (charOfNat? (0x10000 + (n - 0xD800) * 0x400 + (q.1 - 0xDC00))) q.2
      else .error .jsonDecodeError)
  | _ => .error .jsonDecodeError

/-- A `\u` escape (the `\u` already consumed): four hex digits, which are
either a BMP scalar value, a high surrogate to be completed by a following
low-surrogate escape, or a lone surrogate (refused: it denotes no scalar
value, so it is outside the modelled fragment). -/
def unescapeU (r2 : Str) : Except PyErr (Char × Str) :=
  (parseHex4 r2).bind (fun p =>
    if 0xD800 ≤ p.1 ∧ p.1 < 0xDC00 then unescapePair p.1 p.2
    else charOption (charOfNat? p.1) p.2)

/-- Decode one backslash escape (the backslash already consumed),
returning the denoted character and the remaining input. -/
def unescape1 (r : Str) : Except PyErr (Char × Str) :=
  match r with
  | '"' :: r2 => .ok ('"', r2)
  | '\\' :: r2 => .ok ('\\', r2)
  | '/' :: r2 => .ok ('/', r2)
  | 'b' :: r2 => .ok ('\x08', r2)
  | 'f' :: r2 => .ok ('\x0C', r2)
  | 'n' :: r2 => .ok ('\n', r2)
  | 'r' :: r2 => .ok ('\r', r2)
  | 't' :: r2 => .ok ('\t', r2)
  | 'u' :: r2 => unescapeU r2
  | _ => .error .jsonDecodeError

/-- The body of a string literal after the opening quote, up to and past
the closing quote. -/
def parseStrBody : Nat → Str → Except PyErr (Str × Str)
  | _, '"' :: r => .ok ([], r)
  | fuel + 1, '\\' :: r =>
    match unescape1 r with
    | .ok (c, r2) => (parseStrBody fuel r2).map (fun p => (c :: p.1, p.2))
    | .error e => .error e
  | fuel + 1, c :: r =>
    if c.toNat < 0x20 then .error .jsonDecodeError
    else (parseStrBody fuel r).map (fun p => (c :: p.1, p.2))
  | _, [] => .error .jsonDecodeError
  | 0, _ => .error .jsonDecodeError

/-- Expect an exact literal continuation (as the CPython scanner checks
`s[idx:idx+n]` against `null` / `true` / `false`). -/
def expectLit (lit : Str) (v : JVal) (r : Str) : Except PyErr (JVal × Str) :=
  if r.take lit.length = lit then .ok (v, r.drop lit.length)
  else .error .jsonDecodeError

mutual

/-- One JSON value, after skipping leading whitespace. -/
def parseVal : Nat → Str → Except PyErr (JVal × Str)
  | 0, _ => .error .jsonDecodeError
  | fuel + 1, s =>
    match skipWs s with
    | [] => .error .jsonDecodeError
    | c :: r =>
      if c = 'n' then expectLit (str "ull") .null r
      else if c = 't' then expectLit (str "rue") (.bool true) r
      else if c = 'f' then expectLit (str "alse") (.bool false) r
      else if c = '"' then (parseStrBody fuel r).map (fun p => (.jstr p.1, p.2))
      else if c = '[' then
        match skipWs r with
        | ']' :: r2 => .ok (.arr [], r2)
        | r2 => (parseElems fuel r2).map (fun p => (.arr p.1, p.2))
      else if c = '{' then
        match skipWs r with
        | '}' :: r2 => .ok (.obj [], r2)
        | r2 => (parseMembers fuel r2).map (fun p => (.obj (buildDict p.1), p.2))
      else if c = '-' then (parseUIntTok r).map (fun p => (.int (-(p.1 : Int)), p.2))
      else if isDigit c then (parseUIntTok (c :: r)).map (fun p => (.int (p.1 : Int), p.2))
      else .error .jsonDecodeError
termination_by structural fuel => fuel

/-- The elements of a non-empty array, up to and past the closing bracket. -/
def parseElems : Nat → Str → Except PyErr (List JVal × Str)
  | 0, _ => .error .jsonDecodeError
  | fuel + 1, s =>
    match parseVal fuel s with
    | .error e => .error e
    | .ok (v, r) =>
      match skipWs r with
      | ',' :: r2 => (parseElems fuel r2).map (fun p => (v :: p.1, p.2))
      | ']' :: r2 => .ok ([v], r2)
      | _ => .error .jsonDecodeError
termination_by structural fuel => fuel

/-- The members of a non-empty object (input already past leading
whitespace), up to and past the closing brace. -/
def parseMembers : Nat → Str → Except PyErr (List (Str × JVal) × Str)
  | 0, _ => .error .jsonDecodeError
  | fuel + 1, s =>
    match s with
    | '"' :: r =>
      (match parseStrBody fuel r with
      | .error e => .error e
      | .ok (k, r1) =>
        match skipWs r1 with
        | ':' :: r2 =>
          (match parseVal fuel r2 with
          | .error e => .error e
          | .ok (v, r3) =>
            match skipWs r3 with
            | ',' :: r4 =>
              (parseMembers fuel (skipWs r4)).map (fun p => ((k, v) :: p.1, p.2))
            | '}' :: r4 => .ok ([(k, v)], r4)
            | _ => .error .jsonDecodeError)
        | _ => .error .jsonDecodeError)
    | _ => .error .jsonDecodeError
termination_by structural fuel => fuel

end

/-- `json.loads`: one complete value, then nothing but whitespace. -/
def loads (s : Str) : Except PyErr JVal :=
  match parseVal (s.length + 1) s with
  | .error e => .error e
  | .ok (v, r) => if skipWs r = [] then .ok v else .error .jsonDecodeError


/-! ## Reading back what `dumps` wrote

The printer-completeness lemmas: each syntactic construct the printer
emits is read back as the value it was printed from. -/

theorem char_toNat_injective {c d : Char} (h : c.toNat = d.toNat) : c = d := by
  apply Char.ext
  unfold Char.toNat at h
  exact UInt32.toNat.inj h

theorem skipWs_not_ws {c : Char} (h : isWsChar c = false) (t : Str) :
    skipWs (c :: t) = c :: t := by
  simp [skipWs, h]

theorem isDigit_toNat {c : Char} (h : isDigit c = true) :
    48 ≤ c.toNat ∧ c.toNat ≤ 57 := by
  simp only [isDigit, Bool.and_eq_true, decide_eq_true_eq] at h
  rw [Char.le_def] at h
  rw [Char.le_def] at h
  exact h

theorem isDigit_digitChar : ∀ k, isDigit (digitChar k) = true := by
  intro k
  match k with
  | 0 | 1 | 2 | 3 | 4 | 5 | 6 | 7 | 8 => rfl
  | n + 9 => rfl

theorem digitChar_val : ∀ k, k < 10 → (digitChar k).toNat - 48 = k := by decide

theorem digitChar_ne_zero : ∀ k, 1 ≤ k → digitChar k ≠ '0' := by
  intro k hk
  match k, hk with
  | 1, _ => decide
  | 2, _ => decide
  | 3, _ => decide
  | 4, _ => decide
  | 5, _ => decide
  | 6, _ => decide
  | 7, _ => decide
  | 8, _ => decide
  | n + 9, _ => exact (by decide : ('9' : Char) ≠ '0')

theorem natToDigitsAux_all_digit :
    ∀ fuel n, ∀ c ∈ natToDigitsAux fuel n, isDigit c = true := by
  intro fuel
  induction fuel with
  | zero =>
    intro n c hc
    simp only [natToDigitsAux, List.mem_singleton] at hc
    rw [hc]
    exact isDigit_digitChar n
  | succ fuel ih =>
    intro n c hc
    unfold natToDigitsAux at hc
    split at hc
    · simp only [List.mem_singleton] at hc
      rw [hc]
      exact isDigit_digitChar n
    · rw [List.mem_append] at hc
      rcases hc with hc | hc
      · exact ih _ c hc
      · simp only [List.mem_singleton] at hc
        rw [hc]
        exact isDigit_digitChar _

theorem natToDigitsAux_head_ne_zero :
    ∀ fuel n, 1 ≤ n → ∃ c cs, natToDigitsAux fuel n = c :: cs ∧ c ≠ '0' := by
  intro fuel
  induction fuel with
  | zero =>
    intro n hn
    exact ⟨digitChar n, [], rfl, digitChar_ne_zero n hn⟩
  | succ fuel ih =>
    intro n hn
    unfold natToDigitsAux
    split
    · exact ⟨digitChar n, [], rfl, digitChar_ne_zero n hn⟩
    · rename_i hge
      obtain ⟨c, cs, hcs, hc0⟩ := ih (n / 10) (by omega)
      exact ⟨c, cs ++ [digitChar (n % 10)], by rw [hcs]; rfl, hc0⟩

/-- The value reconstructed by the digit scanner. -/
def digitsAcc (acc : Nat) (ds : Str) : Nat :=
  ds.foldl (fun a c => a * 10 + (c.toNat - 48)) acc

/-- What may follow an integer token without extending it or turning it
into a float. -/
def numStop : Str → Prop
  | [] => True
  | c :: _ => isDigit c = false ∧ c ≠ '.' ∧ c ≠ 'e' ∧ c ≠ 'E'

theorem parseDigitsAux_digits :
    ∀ ds rest acc, (∀ c ∈ ds, isDigit c = true) →
      parseDigitsAux (ds ++ rest) acc = parseDigitsAux rest (digitsAcc acc ds) := by
  intro ds
  induction ds with
  | nil => intro rest acc _; rfl
  | cons c cs ih =>
    intro rest acc hall
    have hc : isDigit c = true := hall c (List.mem_cons_self c cs)
    have step : parseDigitsAux (c :: (cs ++ rest)) acc =
        parseDigitsAux (cs ++ rest) (acc * 10 + (c.toNat - 48)) := by
      conv_lhs => unfold parseDigitsAux
      rw [if_pos hc]
    rw [List.cons_append, step,
      ih rest _ (fun d hd => hall d (List.mem_cons_of_mem c hd))]
    rfl

theorem parseDigitsAux_stop {rest : Str} (acc : Nat) (h : numStop rest) :
    parseDigitsAux rest acc = (acc, rest) := by
  cases rest with
  | nil => rfl
  | cons c t =>
    unfold parseDigitsAux
    rw [if_neg]
    rw [h.1]
    exact Bool.false_ne_true

theorem checkNumTail_stop {rest : Str} (h : numStop rest) :
    checkNumTail rest = .ok () := by
  cases rest with
  | nil => rfl
  | cons c t =>
    rw [show checkNumTail (c :: t) =
      (if c = '.' ∨ c = 'e' ∨ c = 'E' then .error .jsonDecodeError else .ok ())
      from rfl]
    rw [if_neg]
    push_neg
    exact ⟨h.2.1, h.2.2.1, h.2.2.2⟩

theorem digitsAcc_natToDigitsAux :
    ∀ fuel n acc, n < 10 ^ (fuel + 1) →
      digitsAcc acc (natToDigitsAux fuel n) =
        acc * 10 ^ (natToDigitsAux fuel n).length + n := by
  intro fuel
  induction fuel with
  | zero =>
    intro n acc hn
    have h10 : n < 10 := by simpa using hn
    simp only [natToDigitsAux, digitsAcc, List.foldl_cons, List.foldl_nil,
      List.length_singleton, pow_one]
    rw [digitChar_val n h10]
  | succ fuel ih =>
    intro n acc hn
    unfold natToDigitsAux
    split
    · rename_i h10
      simp only [digitsAcc, List.foldl_cons, List.foldl_nil, List.length_singleton,
        pow_one]
      rw [digitChar_val n h10]
    · rename_i hge
      push_neg at hge
      have hdiv : n / 10 < 10 ^ (fuel + 1) := by
        rw [Nat.div_lt_iff_lt_mul (by omega)]
        calc n < 10 ^ (fuel + 1 + 1) := hn
        _ = 10 ^ (fuel + 1) * 10 := by rw [pow_succ]
      have hrec := ih (n / 10) acc hdiv
      simp only [digitsAcc, List.foldl_append, List.foldl_cons, List.foldl_nil,
        List.length_append, List.length_singleton]
      rw [show (List.foldl (fun a c => a * 10 + (c.toNat - 48)) acc
          (natToDigitsAux fuel (n / 10))) = digitsAcc acc (natToDigitsAux fuel (n / 10))
        from rfl, hrec, digitChar_val (n % 10) (Nat.mod_lt n (by omega)), pow_succ]
      have := Nat.div_add_mod n 10
      ring_nf
      omega

theorem natToDigits_lt_pow (n : Nat) : n < 10 ^ (n + 1) := by
  calc n < 10 ^ n := Nat.lt_pow_self (by omega) n
  _ ≤ 10 ^ (n + 1) := Nat.pow_le_pow_right (by omega) (by omega)

theorem parseUIntTok_natToDigits (n : Nat) {rest : Str} (h : numStop rest) :
    parseUIntTok (natToDigits n ++ rest) = .ok (n, rest) := by
  by_cases hn : n = 0
  · subst hn
    show parseUIntTok ('0' :: rest) = .ok (0, rest)
    simp only [parseUIntTok]
    rw [if_pos trivial, checkNumTail_stop h]
    rfl
  · obtain ⟨c, cs, hcs, hc0⟩ := natToDigitsAux_head_ne_zero n n (by omega)
    have hcs' : natToDigits n = c :: cs := hcs
    have hcd : isDigit c = true :=
      natToDigitsAux_all_digit n n c (by rw [hcs]; exact List.mem_cons_self c cs)
    have hval := digitsAcc_natToDigitsAux n n 0 (natToDigits_lt_pow n)
    rw [hcs] at hval
    have hv : digitsAcc (c.toNat - 48) cs = n := by
      simpa [digitsAcc, Nat.zero_mul, Nat.zero_add] using hval
    rw [hcs', List.cons_append]
    simp only [parseUIntTok]
    rw [if_neg hc0, if_pos hcd]
    rw [parseDigitsAux_digits cs rest (c.toNat - 48)
      (fun d hd => natToDigitsAux_all_digit n n d
        (by rw [hcs]; exact List.mem_cons_of_mem c hd))]
    rw [parseDigitsAux_stop _ h, hv, checkNumTail_stop h]
    rfl


theorem psb_quote (fuel : Nat) (r : Str) : parseStrBody fuel ('"' :: r) = .ok ([], r) := by
  cases fuel <;> rfl

theorem psb_lit {c : Char} (h1 : c ≠ '"') (h2 : c ≠ '\\') (h3 : ¬ c.toNat < 0x20)
    (fuel : Nat) (r : Str) :
    parseStrBody (fuel + 1) (c :: r) =
      (parseStrBody fuel r).map (fun p => (c :: p.1, p.2)) := by
  simp only [parseStrBody, h1, h2, h3]
  simp

theorem psb_esc {r : Str} {c : Char} {r2 : Str} (h : unescape1 r = .ok (c, r2))
    (fuel : Nat) :
    parseStrBody (fuel + 1) ('\\' :: r) =
      (parseStrBody fuel r2).map (fun p => (c :: p.1, p.2)) := by
  simp only [parseStrBody, h]

theorem hexVal_hexChar : ∀ k, k < 16 → hexVal (hexChar k) = some k := by decide

theorem parseHex4_hex4 {n : Nat} (hn : n < 0x10000) (rest : Str) :
    parseHex4 (hex4 n ++ rest) = .ok (n, rest) := by
  show parseHex4 (hexChar (n / 0x1000 % 16) :: hexChar (n / 0x100 % 16) ::
    hexChar (n / 16 % 16) :: hexChar (n % 16) :: rest) = .ok (n, rest)
  simp only [parseHex4, hexVal_hexChar _ (Nat.mod_lt _ (by omega))]
  congr 2
  omega

/-- `unescape1` inverts `escapeChar`: reading the escape of `c` yields `c`
and consumes exactly the escape. -/
theorem unescape1_escapeChar (c : Char) (rest : Str) :
    (c = '"' ∨ c = '\\' ∨ c.toNat < 0x20 ∨ 0x7E < c.toNat) →
      ∃ tail, escapeChar c = '\\' :: tail ∧ unescape1 (tail ++ rest) = .ok (c, rest) := by
  intro hcl
  obtain ⟨hub, hsur⟩ := char_toNat_bounds c
  by_cases h1 : c = '"'
  · exact ⟨['"'], by rw [h1]; rfl, by rw [h1]; rfl⟩
  by_cases h2 : c = '\\'
  · exact ⟨['\\'], by rw [h2]; rfl, by rw [h2]; rfl⟩
  by_cases h3 : c = '\n'
  · exact ⟨['n'], by rw [h3]; rfl, by rw [h3]; rfl⟩
  by_cases h4 : c = '\r'
  · exact ⟨['r'], by rw [h4]; rfl, by rw [h4]; rfl⟩
  by_cases h5 : c = '\t'
  · exact ⟨['t'], by rw [h5]; rfl, by rw [h5]; rfl⟩
  by_cases h6 : c.toNat = 0x8
  · have hc : c = '\x08' := char_toNat_injective h6
    exact ⟨['b'], by rw [hc]; rfl, by rw [hc]; rfl⟩
  by_cases h7 : c.toNat = 0xC
  · have hc : c = '\x0C' := char_toNat_injective h7
    exact ⟨['f'], by rw [hc]; rfl, by rw [hc]; rfl⟩
  · -- now only the \uXXXX forms remain
    have hprint : ¬ (0x20 ≤ c.toNat ∧ c.toNat ≤ 0x7E) := by
      rcases hcl with h | h | h | h
      · exact absurd h h1
      · exact absurd h h2
      · omega
      · omega
    have e1 : c ≠ '"' := h1
    have hesc : escapeChar c =
        if c.toNat < 0x10000 then '\\' :: 'u' :: hex4 c.toNat
        else '\\' :: 'u' :: hex4 (0xD800 + (c.toNat - 0x10000) / 0x400) ++
          '\\' :: 'u' :: hex4 (0xDC00 + (c.toNat - 0x10000) % 0x400) := by
      unfold escapeChar
      rw [if_neg h1, if_neg h2, if_neg h3, if_neg h4, if_neg h5, if_neg h6,
        if_neg h7, if_neg hprint]
    by_cases hbmp : c.toNat < 0x10000
    · refine ⟨'u' :: hex4 c.toNat, by rw [hesc, if_pos hbmp], ?_⟩
      show unescapeU (hex4 c.toNat ++ rest) = .ok (c, rest)
      unfold unescapeU
      rw [parseHex4_hex4 hbmp rest, except_bind_ok]
      dsimp only
      rw [if_neg (by omega), charOfNat?_toNat]
      rfl
    · refine ⟨'u' :: hex4 (0xD800 + (c.toNat - 0x10000) / 0x400) ++
        '\\' :: 'u' :: hex4 (0xDC00 + (c.toNat - 0x10000) % 0x400),
        by rw [hesc, if_neg hbmp]; rfl, ?_⟩
      have hdiv : (c.toNat - 0x10000) / 0x400 < 0x400 := by
        rw [Nat.div_lt_iff_lt_mul (by omega)]
        omega
      have hh : 0xD800 + (c.toNat - 0x10000) / 0x400 < 0x10000 := by omega
      have hl : 0xDC00 + (c.toNat - 0x10000) % 0x400 < 0x10000 := by
        have := Nat.mod_lt (c.toNat - 0x10000) (show 0 < 0x400 by omega)
        omega
      show unescapeU (hex4 (0xD800 + (c.toNat - 0x10000) / 0x400) ++
        ('\\' :: 'u' :: hex4 (0xDC00 + (c.toNat - 0x10000) % 0x400) ++ rest)) =
        .ok (c, rest)
      unfold unescapeU
      rw [parseHex4_hex4 hh, except_bind_ok]
      dsimp only
      rw [if_pos (by constructor <;> omega)]
      have hpair : ∀ (n : Nat) (r4 : Str), unescapePair n ('\\' :: 'u' :: r4) =
          (parseHex4 r4).bind (fun q =>
            if 0xDC00 ≤ q.1 ∧ q.1 < 0xE000 then
              charOption (charOfNat? (0x10000 + (n - 0xD800) * 0x400 + (q.1 - 0xDC00)))
                q.2
            else .error .jsonDecodeError) := fun n r4 => rfl
      rw [List.cons_append, List.cons_append]
      rw [hpair, parseHex4_hex4 hl, except_bind_ok]
      rw [if_pos (by constructor <;> omega)]
      have hback : 0x10000 + (0xD800 + (c.toNat - 0x10000) / 0x400 - 0xD800) * 0x400 +
          (0xDC00 + (c.toNat - 0x10000) % 0x400 - 0xDC00) = c.toNat := by
        have := Nat.div_add_mod (c.toNat - 0x10000) 0x400
        omega
      rw [hback, charOfNat?_toNat]
      rfl


theorem escapeChar_lit {c : Char} (h1 : c ≠ '"') (h2 : c ≠ '\\')
    (h3 : 0x20 ≤ c.toNat) (h4 : c.toNat ≤ 0x7E) : escapeChar c = [c] := by
  have hn : c ≠ '\n' := fun hq => by subst hq; exact absurd h3 (by decide)
  have hr : c ≠ '\r' := fun hq => by subst hq; exact absurd h3 (by decide)
  have ht : c ≠ '\t' := fun hq => by subst hq; exact absurd h3 (by decide)
  have hb : ¬ c.toNat = 0x8 := by omega
  have hf : ¬ c.toNat = 0xC := by omega
  unfold escapeChar
  rw [if_neg h1, if_neg h2, if_neg hn, if_neg hr, if_neg ht, if_neg hb, if_neg hf,
    if_pos ⟨h3, h4⟩]

theorem parseStrBody_escape :
    ∀ (s : Str) (fuel : Nat) (rest : Str), s.length ≤ fuel →
      parseStrBody fuel ((s.map escapeChar).flatten ++ '"' :: rest) = .ok (s, rest) := by
  intro s
  induction s with
  | nil =>
    intro fuel rest _
    simpa using psb_quote fuel rest
  | cons c cs ih =>
    intro fuel rest hlen
    match fuel, hlen with
    | fuel + 1, hlen =>
      have hX : ((c :: cs).map escapeChar).flatten ++ '"' :: rest =
          escapeChar c ++ ((cs.map escapeChar).flatten ++ '"' :: rest) := by
        simp
      rw [hX]
      by_cases hcl : c = '"' ∨ c = '\\' ∨ c.toNat < 0x20 ∨ 0x7E < c.toNat
      · obtain ⟨tail, htail, hun⟩ :=
          unescape1_escapeChar c ((cs.map escapeChar).flatten ++ '"' :: rest) hcl
        rw [htail, List.cons_append, psb_esc hun fuel,
          ih fuel rest (by simpa using Nat.le_of_succ_le_succ hlen)]
        rfl
      · push_neg at hcl
        obtain ⟨h1, h2, h3, h4⟩ := hcl
        rw [escapeChar_lit h1 h2 h3 h4, List.cons_append, List.nil_append,
          psb_lit h1 h2 (by omega) fuel,
          ih fuel rest (by simpa using Nat.le_of_succ_le_succ hlen)]
        rfl


theorem isWsChar_toNat {c : Char} (h : isWsChar c = true) :
    c.toNat = 32 ∨ c.toNat = 9 ∨ c.toNat = 10 ∨ c.toNat = 13 := by
  simp only [isWsChar, Bool.or_eq_true, decide_eq_true_eq] at h
  rcases h with ((h | h) | h) | h <;> subst h
  · exact Or.inl rfl
  · exact Or.inr (Or.inl rfl)
  · exact Or.inr (Or.inr (Or.inl rfl))
  · exact Or.inr (Or.inr (Or.inr rfl))

theorem isDigit_not_ws {c : Char} (h : isDigit c = true) : isWsChar c = false := by
  have hb := isDigit_toNat h
  cases hws : isWsChar c with
  | false => rfl
  | true => have := isWsChar_toNat hws; omega

theorem natToDigitsAux_cons :
    ∀ fuel n, ∃ c cs, natToDigitsAux fuel n = c :: cs := by
  intro fuel
  induction fuel with
  | zero => intro n; exact ⟨digitChar n, [], rfl⟩
  | succ fuel ih =>
    intro n
    unfold natToDigitsAux
    split
    · exact ⟨digitChar n, [], rfl⟩
    · obtain ⟨c, cs, hcs⟩ := ih (n / 10)
      exact ⟨c, cs ++ [digitChar (n % 10)], by rw [hcs]; rfl⟩

/-- `dumps` output begins with a non-whitespace character, so the reader's
leading whitespace skip leaves it untouched. -/
theorem skipWs_dumps (v : JVal) (r : Str) :
    skipWs (dumps v ++ r) = dumps v ++ r := by
  cases v with
  | null => exact skipWs_not_ws (by decide) _
  | bool b => cases b <;> exact skipWs_not_ws (by decide) _
  | jstr s => exact skipWs_not_ws (by decide) _
  | arr xs => exact skipWs_not_ws (by decide) _
  | obj kvs => exact skipWs_not_ws (by decide) _
  | int n =>
    cases n with
    | ofNat m =>
      obtain ⟨c, cs, hcs⟩ := natToDigitsAux_cons m m
      have hd : isDigit c = true :=
        natToDigitsAux_all_digit m m c (by rw [hcs]; exact List.mem_cons_self c cs)
      have : dumps (.int (.ofNat m)) = c :: cs := hcs
      rw [this, List.cons_append]
      exact skipWs_not_ws (isDigit_not_ws hd) _
    | negSucc m =>
      show skipWs (('-' :: natToDigits (m + 1)) ++ r) = _
      rw [List.cons_append]
      exact skipWs_not_ws (by decide) _

theorem hexChar_toNat_ne_10 : ∀ k, (hexChar k).toNat ≠ 10 := by
  intro k
  match k with
  | 0 | 1 | 2 | 3 | 4 | 5 | 6 | 7 | 8 | 9 | 10 | 11 | 12 | 13 | 14 => decide
  | n + 15 => exact (by decide : ('f' : Char).toNat ≠ 10)

theorem escapeChar_no_nl (c : Char) : ∀ d ∈ escapeChar c, d.toNat ≠ 10 := by
  intro d hd
  unfold escapeChar at hd
  split_ifs at hd with e1 e2 e3 e4 e5 e6 e7 e8 e9
  all_goals simp only [hex4, List.cons_append, List.mem_cons, List.mem_append,
    List.mem_singleton, List.not_mem_nil, or_false, false_or] at hd
  · rcases hd with hd | hd <;> rw [hd] <;> decide
  · rcases hd with hd | hd <;> rw [hd] <;> decide
  · rcases hd with hd | hd <;> rw [hd] <;> decide
  · rcases hd with hd | hd <;> rw [hd] <;> decide
  · rcases hd with hd | hd <;> rw [hd] <;> decide
  · rcases hd with hd | hd <;> rw [hd] <;> decide
  · rcases hd with hd | hd <;> rw [hd] <;> decide
  · rw [hd]; omega
  · rcases hd with hd | hd | hd | hd | hd | hd <;> rw [hd]
    · decide
    · decide
    · exact hexChar_toNat_ne_10 _
    · exact hexChar_toNat_ne_10 _
    · exact hexChar_toNat_ne_10 _
    · exact hexChar_toNat_ne_10 _
  · rcases hd with hd | hd | hd | hd | hd | hd | hd | hd | hd | hd | hd | hd <;> rw [hd]
    · decide
    · decide
    · exact hexChar_toNat_ne_10 _
    · exact hexChar_toNat_ne_10 _
    · exact hexChar_toNat_ne_10 _
    · exact hexChar_toNat_ne_10 _
    · decide
    · decide
    · exact hexChar_toNat_ne_10 _
    · exact hexChar_toNat_ne_10 _
    · exact hexChar_toNat_ne_10 _
    · exact hexChar_toNat_ne_10 _

theorem natToDigits_no_nl (fuel n : Nat) : ∀ d ∈ natToDigitsAux fuel n, d.toNat ≠ 10 := by
  intro d hd
  have := isDigit_toNat (natToDigitsAux_all_digit fuel n d hd)
  omega

theorem dumpStr_no_nl (s : Str) : ∀ d ∈ dumpStr s, d.toNat ≠ 10 := by
  intro d hd
  simp only [dumpStr, List.mem_cons, List.mem_append, List.mem_singleton,
    List.mem_flatten, List.mem_map, List.not_mem_nil, or_false] at hd
  rcases hd with (hd | ⟨l, ⟨a, _, hl⟩, hdl⟩) | hd
  · subst hd; decide
  · exact escapeChar_no_nl a d (hl ▸ hdl)
  · subst hd; decide


theorem jfuel_pos : ∀ v, 1 ≤ jfuel v := by
  intro v
  cases v <;> simp [jfuel] <;> try omega

theorem escape_flatten_length (s : Str) :
    s.length ≤ ((s.map escapeChar).flatten).length := by
  induction s with
  | nil => simp
  | cons c cs ih =>
    have h1 : 1 ≤ (escapeChar c).length := by
      unfold escapeChar
      split_ifs <;> simp [hex4]
    simp only [List.map_cons, List.flatten_cons, List.length_append,
      List.length_cons]
    omega

theorem dumpStr_length (s : Str) : s.length + 2 ≤ (dumpStr s).length := by
  have := escape_flatten_length s
  simp only [dumpStr, List.length_cons, List.length_append, List.length_singleton]
  omega

theorem intRepr_ne_nil (n : Int) : 1 ≤ (intRepr n).length := by
  cases n with
  | ofNat m =>
    obtain ⟨c, cs, hcs⟩ := natToDigitsAux_cons m m
    show 1 ≤ (natToDigits m).length
    rw [show natToDigits m = c :: cs from hcs]
    simp
  | negSucc m => simp [intRepr]

theorem jfuel_le_dumps_aux : ∀ fuel,
    (∀ v, jfuel v ≤ fuel → jfuel v ≤ (dumps v).length) ∧
    (∀ xs, jfuelArr xs ≤ fuel → jfuelArr xs ≤ (dumpsArr xs).length) ∧
    (∀ kvs, jfuelObj kvs ≤ fuel → jfuelObj kvs ≤ (dumpsObj kvs).length) := by
  intro fuel
  induction fuel with
  | zero =>
    refine ⟨fun v hv => absurd hv (by have := jfuel_pos v; omega), ?_, ?_⟩
    · intro xs hxs
      match xs with
      | [] => simp [jfuelArr]
      | x :: xs =>
        exact absurd hxs (by simp only [jfuelArr]; have := jfuel_pos x; omega)
    · intro kvs hkvs
      match kvs with
      | [] => simp [jfuelObj]
      | (k, v) :: kvs =>
        exact absurd hkvs (by simp only [jfuelObj]; omega)
  | succ fuel ih =>
    have part1 : ∀ v, jfuel v ≤ fuel + 1 → jfuel v ≤ (dumps v).length := by
      intro v hv
      cases v with
      | null => simp [jfuel, dumps, str]
      | bool b => cases b <;> simp [jfuel, dumps, str]
      | int n =>
        show 1 ≤ (intRepr n).length
        exact intRepr_ne_nil n
      | jstr s => have := dumpStr_length s; simp [jfuel, dumps]; omega
      | arr xs =>
        simp only [jfuel, dumps, List.length_cons, List.length_append,
          List.length_singleton]
        have hxs : jfuelArr xs ≤ fuel := by simp [jfuel] at hv; omega
        have h2 := ih.2.1 xs hxs
        omega
      | obj kvs =>
        simp only [jfuel, dumps, List.length_cons, List.length_append,
          List.length_singleton]
        have hkvs : jfuelObj kvs ≤ fuel := by simp [jfuel] at hv; omega
        have h2 := ih.2.2 kvs hkvs
        omega
    have part2 : ∀ xs, jfuelArr xs ≤ fuel + 1 → jfuelArr xs ≤ (dumpsArr xs).length := by
      intro xs hxs
      match xs with
      | [] => simp [jfuelArr]
      | [x] =>
        have : jfuel x ≤ fuel + 1 := by simp [jfuelArr] at hxs; omega
        have := part1 x this
        simp only [jfuelArr, dumpsArr]
        omega
      | x :: y :: ys =>
        have hx : jfuel x ≤ fuel + 1 := by
          simp [jfuelArr] at hxs
          have := jfuel_pos y
          omega
        have hx2 : jfuelArr (y :: ys) ≤ fuel := by
          simp [jfuelArr] at hxs ⊢
          have := jfuel_pos x
          omega
        have h1 := part1 x hx
        have h2 := ih.2.1 (y :: ys) hx2
        show jfuel x + jfuelArr (y :: ys) ≤ (dumps x ++ ',' :: ' ' :: dumpsArr (y :: ys)).length
        simp only [List.length_append, List.length_cons]
        omega
    have part3 : ∀ kvs, jfuelObj kvs ≤ fuel + 1 →
        jfuelObj kvs ≤ (dumpsObj kvs).length := by
      intro kvs hkvs
      match kvs with
      | [] => simp [jfuelObj]
      | [(k, v)] =>
        have hv : jfuel v ≤ fuel + 1 := by simp [jfuelObj] at hkvs; omega
        have h1 := part1 v hv
        have h2 := dumpStr_length k
        show k.length + jfuel v + 2 + jfuelObj [] ≤
          (dumpStr k ++ ':' :: ' ' :: dumps v).length
        simp only [jfuelObj, List.length_append, List.length_cons]
        omega
      | (k, v) :: p :: ps =>
        have hv : jfuel v ≤ fuel + 1 := by
          simp [jfuelObj] at hkvs
          omega
        have hrest : jfuelObj (p :: ps) ≤ fuel := by
          match p with
          | (k2, v2) =>
            simp [jfuelObj] at hkvs ⊢
            have := jfuel_pos v
            omega
        have h1 := part1 v hv
        have h2 := dumpStr_length k
        have h3 := ih.2.2 (p :: ps) hrest
        show k.length + jfuel v + 2 + jfuelObj (p :: ps) ≤
          (dumpStr k ++ ':' :: ' ' :: dumps v ++ ',' :: ' ' :: dumpsObj (p :: ps)).length
        simp only [List.length_append, List.length_cons]
        omega
    exact ⟨part1, part2, part3⟩

/-- The parser fuel `dumps v` needs is covered by the printed length. -/
theorem jfuel_le_dumps (v : JVal) : jfuel v ≤ (dumps v).length :=
  (jfuel_le_dumps_aux (jfuel v)).1 v (le_refl _)


theorem intRepr_no_nl (n : Int) : ∀ d ∈ intRepr n, d.toNat ≠ 10 := by
  intro d hd
  cases n with
  | ofNat m => exact natToDigits_no_nl m m d hd
  | negSucc m =>
    simp only [intRepr, List.mem_cons] at hd
    rcases hd with hd | hd
    · rw [hd]; decide
    · exact natToDigits_no_nl (m + 1) (m + 1) d hd

theorem dumps_no_nl_aux : ∀ fuel,
    (∀ v, jfuel v ≤ fuel → ∀ d ∈ dumps v, d.toNat ≠ 10) ∧
    (∀ xs, jfuelArr xs ≤ fuel → ∀ d ∈ dumpsArr xs, d.toNat ≠ 10) ∧
    (∀ kvs, jfuelObj kvs ≤ fuel → ∀ d ∈ dumpsObj kvs, d.toNat ≠ 10) := by
  intro fuel
  induction fuel with
  | zero =>
    refine ⟨fun v hv => absurd hv (by have := jfuel_pos v; omega), ?_, ?_⟩
    · intro xs hxs
      match xs with
      | [] => intro d hd; cases hd
      | x :: xs =>
        exact absurd hxs (by simp only [jfuelArr]; have := jfuel_pos x; omega)
    · intro kvs hkvs
      match kvs with
      | [] => intro d hd; cases hd
      | (k, v) :: kvs =>
        exact absurd hkvs (by simp only [jfuelObj]; omega)
  | succ fuel ih =>
    have part1 : ∀ v, jfuel v ≤ fuel + 1 → ∀ d ∈ dumps v, d.toNat ≠ 10 := by
      intro v hv d hd
      cases v with
      | null =>
        rw [show dumps .null = ['n', 'u', 'l', 'l'] from rfl] at hd
        simp only [List.mem_cons, List.not_mem_nil, or_false] at hd
        rcases hd with hd | hd | hd | hd <;> rw [hd] <;> decide
      | bool b =>
        cases b with
        | true =>
          rw [show dumps (.bool true) = ['t', 'r', 'u', 'e'] from rfl] at hd
          simp only [List.mem_cons, List.not_mem_nil, or_false] at hd
          rcases hd with hd | hd | hd | hd <;> rw [hd] <;> decide
        | false =>
          rw [show dumps (.bool false) = ['f', 'a', 'l', 's', 'e'] from rfl] at hd
          simp only [List.mem_cons, List.not_mem_nil, or_false] at hd
          rcases hd with hd | hd | hd | hd | hd <;> rw [hd] <;> decide
      | int n => exact intRepr_no_nl n d hd
      | jstr s => exact dumpStr_no_nl s d hd
      | arr xs =>
        rw [show dumps (.arr xs) = '[' :: dumpsArr xs ++ [']'] from rfl] at hd
        simp only [List.mem_cons, List.mem_append, List.mem_singleton,
          List.not_mem_nil, or_false, or_assoc] at hd
        rcases hd with hd | hd | hd
        · rw [hd]; decide
        · have hxs : jfuelArr xs ≤ fuel := by simp only [jfuel] at hv; omega
          exact ih.2.1 xs hxs d hd
        · rw [hd]; decide
      | obj kvs =>
        rw [show dumps (.obj kvs) = '{' :: dumpsObj kvs ++ ['}'] from rfl] at hd
        simp only [List.mem_cons, List.mem_append, List.mem_singleton,
          List.not_mem_nil, or_false, or_assoc] at hd
        rcases hd with hd | hd | hd
        · rw [hd]; decide
        · have hkvs : jfuelObj kvs ≤ fuel := by simp only [jfuel] at hv; omega
          exact ih.2.2 kvs hkvs d hd
        · rw [hd]; decide
    have part2 : ∀ xs, jfuelArr xs ≤ fuel + 1 → ∀ d ∈ dumpsArr xs, d.toNat ≠ 10 := by
      intro xs hxs d hd
      match xs with
      | [] => cases hd
      | [x] =>
        have hx : jfuel x ≤ fuel + 1 := by simp only [jfuelArr, jfuelArr] at hxs; omega
        exact part1 x hx d hd
      | x :: y :: ys =>
        rw [show dumpsArr (x :: y :: ys) =
          dumps x ++ ',' :: ' ' :: dumpsArr (y :: ys) from rfl] at hd
        simp only [List.mem_append, List.mem_cons, or_assoc] at hd
        have hx : jfuel x ≤ fuel + 1 := by
          simp only [jfuelArr] at hxs
          have := jfuel_pos y
          omega
        have hrest : jfuelArr (y :: ys) ≤ fuel := by
          simp only [jfuelArr] at hxs ⊢
          have := jfuel_pos x
          omega
        rcases hd with hd | hd | hd | hd
        · exact part1 x hx d hd
        · rw [hd]; decide
        · rw [hd]; decide
        · exact ih.2.1 (y :: ys) hrest d hd
    have part3 : ∀ kvs, jfuelObj kvs ≤ fuel + 1 → ∀ d ∈ dumpsObj kvs, d.toNat ≠ 10 := by
      intro kvs hkvs d hd
      match kvs with
      | [] => cases hd
      | [(k, v)] =>
        rw [show dumpsObj [(k, v)] = dumpStr k ++ ':' :: ' ' :: dumps v from rfl] at hd
        simp only [List.mem_append, List.mem_cons, or_assoc] at hd
        have hv : jfuel v ≤ fuel + 1 := by simp only [jfuelObj] at hkvs; omega
        rcases hd with hd | hd | hd | hd
        · exact dumpStr_no_nl k d hd
        · rw [hd]; decide
        · rw [hd]; decide
        · exact part1 v hv d hd
      | (k, v) :: p :: ps =>
        rw [show dumpsObj ((k, v) :: p :: ps) =
          dumpStr k ++ ':' :: ' ' :: dumps v ++ ',' :: ' ' :: dumpsObj (p :: ps)
          from rfl] at hd
        simp only [List.mem_append, List.mem_cons, or_assoc] at hd
        have hv : jfuel v ≤ fuel + 1 := by simp only [jfuelObj] at hkvs; omega
        have hrest : jfuelObj (p :: ps) ≤ fuel := by
          match p with
          | (k2, v2) =>
            simp only [jfuelObj] at hkvs ⊢
            have := jfuel_pos v
            omega
        rcases hd with hd | hd | hd | hd | hd | hd | hd
        · exact dumpStr_no_nl k d hd
        · rw [hd]; decide
        · rw [hd]; decide
        · exact part1 v hv d hd
        · rw [hd]; decide
        · rw [hd]; decide
        · exact ih.2.2 (p :: ps) hrest d hd
    exact ⟨part1, part2, part3⟩

/-- `dumps` output never contains a raw newline: with `ensure_ascii`
escaping, the frame is a single line. -/
theorem dumps_no_nl (v : JVal) : nl ∉ dumps v := by
  intro hmem
  exact (dumps_no_nl_aux (jfuel v)).1 v (le_refl _) nl hmem (by decide)


theorem nodupKeys_iff (l : List Str) : nodupKeys l = true ↔ l.Nodup := by
  induction l with
  | nil => simp [nodupKeys]
  | cons k ks ih =>
    simp only [nodupKeys, Bool.and_eq_true, Bool.not_eq_true', decide_eq_false_iff_not,
      List.nodup_cons, ih]

theorem dictInsert_append {d : List (Str × JVal)} {k : Str} (v : JVal)
    (h : k ∉ d.map Prod.fst) : dictInsert d k v = d ++ [(k, v)] := by
  induction d with
  | nil => rfl
  | cons p rest ih =>
    match p with
    | (k2, v2) =>
      simp only [List.map_cons, List.mem_cons] at h
      push_neg at h
      show (if k2 = k then (k2, v) :: rest else (k2, v2) :: dictInsert rest k v) = _
      rw [if_neg (fun hq => h.1 hq.symm), ih h.2]
      rfl

theorem foldl_dictInsert :
    ∀ (kvs acc : List (Str × JVal)),
      (acc.map Prod.fst ++ kvs.map Prod.fst).Nodup →
      kvs.foldl (fun d kv => dictInsert d kv.1 kv.2) acc = acc ++ kvs := by
  intro kvs
  induction kvs with
  | nil => intro acc _; simp
  | cons p rest ih =>
    intro acc h
    match p with
    | (k, v) =>
      simp only [List.map_cons] at h
      have hk : k ∉ acc.map Prod.fst := by
        have hdis := List.disjoint_of_nodup_append h
        intro hmem
        exact List.disjoint_left.mp hdis hmem (List.mem_cons_self k _)
      have hrearr : acc.map Prod.fst ++ k :: rest.map Prod.fst =
          (acc ++ [(k, v)]).map Prod.fst ++ rest.map Prod.fst := by
        simp
      show rest.foldl (fun d kv => dictInsert d kv.1 kv.2) (dictInsert acc k v) =
        acc ++ (k, v) :: rest
      rw [dictInsert_append v hk, ih (acc ++ [(k, v)]) (by rw [← hrearr]; exact h)]
      simp

/-- `dict(pairs)` is the identity on pair lists with distinct keys. -/
theorem buildDict_nodup {kvs : List (Str × JVal)}
    (h : (kvs.map Prod.fst).Nodup) : buildDict kvs = kvs := by
  have := foldl_dictInsert kvs [] (by simpa using h)
  simpa [buildDict] using this


theorem skipWs_cons_ws {c : Char} (h : isWsChar c = true) (t : Str) :
    skipWs (c :: t) = skipWs t := by
  simp [skipWs, h]

/-- The text after the first element of a printed array. -/
def arrTail : List JVal → Str
  | [] => []
  | y :: ys => ',' :: ' ' :: dumpsArr (y :: ys)

theorem dumpsArr_cons (x : JVal) (xs : List JVal) :
    dumpsArr (x :: xs) = dumps x ++ arrTail xs := by
  cases xs with
  | nil => simp [dumpsArr, arrTail]
  | cons y ys => rfl

/-- The text after the first member of a printed object. -/
def objSep : List (Str × JVal) → Str
  | [] => []
  | p :: ps => ',' :: ' ' :: dumpsObj (p :: ps)

theorem dumpsObj_cons (k : Str) (v : JVal) (kvs : List (Str × JVal)) :
    dumpsObj ((k, v) :: kvs) = dumpStr k ++ ':' :: ' ' :: (dumps v ++ objSep kvs) := by
  cases kvs with
  | nil => simp [dumpsObj, objSep]
  | cons p ps => simp [dumpsObj, objSep]

theorem isDigit_of_toNat {c : Char} (h1 : 48 ≤ c.toNat) (h2 : c.toNat ≤ 57) :
    isDigit c = true := by
  simp only [isDigit, Bool.and_eq_true, decide_eq_true_eq]
  rw [Char.le_def]
  rw [Char.le_def]
  exact ⟨h1, h2⟩

/-- The first character of any printed value: never whitespace, and never a
closing bracket. -/
theorem dumps_head (v : JVal) :
    ∃ c t, dumps v = c :: t ∧ isWsChar c = false ∧ c ≠ ']' := by
  cases v with
  | null => exact ⟨'n', _, rfl, by decide, by decide⟩
  | bool b =>
    cases b with
    | true => exact ⟨'t', _, rfl, by decide, by decide⟩
    | false => exact ⟨'f', _, rfl, by decide, by decide⟩
  | jstr s => exact ⟨'"', _, rfl, by decide, by decide⟩
  | arr xs => exact ⟨'[', _, rfl, by decide, by decide⟩
  | obj kvs => exact ⟨'{', _, rfl, by decide, by decide⟩
  | int n =>
    cases n with
    | ofNat m =>
      obtain ⟨c, cs, hcs⟩ := natToDigitsAux_cons m m
      have hd := isDigit_toNat
        (natToDigitsAux_all_digit m m c (by rw [hcs]; exact List.mem_cons_self c cs))
      refine ⟨c, cs, hcs, isDigit_not_ws (isDigit_of_toNat hd.1 hd.2), ?_⟩
      intro hq
      rw [hq] at hd
      exact absurd hd (by decide)
    | negSucc m => exact ⟨'-', _, rfl, by decide, by decide⟩

theorem skipWs_append_dumps (v : JVal) (pre r : Str)
    (hpre : ∀ c ∈ pre, isWsChar c = true) :
    skipWs (pre ++ (dumps v ++ r)) = dumps v ++ r := by
  induction pre with
  | nil => simpa using skipWs_dumps v r
  | cons c cs ih =>
    rw [List.cons_append, skipWs_cons_ws (hpre c (List.mem_cons_self c cs))]
    exact ih (fun d hd => hpre d (List.mem_cons_of_mem c hd))


theorem char_ne_of_toNat_ne {c d : Char} (h : c.toNat ≠ d.toNat) : c ≠ d :=
  fun hq => h (by rw [hq])

theorem numStop_of_head (c : Char) (t : Str) (h1 : isDigit c = false) (h2 : c ≠ '.')
    (h3 : c ≠ 'e') (h4 : c ≠ 'E') : numStop (c :: t) :=
  ⟨h1, h2, h3, h4⟩

theorem dumpsObj_skipWs (p : Str × JVal) (ps : List (Str × JVal)) (r : Str) :
    skipWs (dumpsObj (p :: ps) ++ r) = dumpsObj (p :: ps) ++ r := by
  match p with
  | (k2, v2) =>
    rw [dumpsObj_cons]
    show skipWs (('"' :: ((k2.map escapeChar).flatten ++ ['"'])) ++ _ ++ r) = _
    rw [List.cons_append]
    exact skipWs_not_ws (by decide) _

theorem parseVal_succ (fuel : Nat) (s : Str) :
    parseVal (fuel + 1) s =
      match skipWs s with
      | [] => Except.error PyErr.jsonDecodeError
      | c :: r =>
        if c = 'n' then expectLit (str "ull") JVal.null r
        else if c = 't' then expectLit (str "rue") (JVal.bool true) r
        else if c = 'f' then expectLit (str "alse") (JVal.bool false) r
        else if c = '"' then (parseStrBody fuel r).map (fun p => (JVal.jstr p.1, p.2))
        else if c = '[' then
          match skipWs r with
          | ']' :: r2 => Except.ok (JVal.arr [], r2)
          | r2 => (parseElems fuel r2).map (fun p => (JVal.arr p.1, p.2))
        else if c = '{' then
          match skipWs r with
          | '}' :: r2 => Except.ok (JVal.obj [], r2)
          | r2 => (parseMembers fuel r2).map (fun p => (JVal.obj (buildDict p.1), p.2))
        else if c = '-' then (parseUIntTok r).map (fun p => (JVal.int (-(p.1 : Int)), p.2))
        else if isDigit c then (parseUIntTok (c :: r)).map
          (fun p => (JVal.int (p.1 : Int), p.2))
        else Except.error PyErr.jsonDecodeError := rfl

theorem parseElems_succ (fuel : Nat) (s : Str) :
    parseElems (fuel + 1) s =
      match parseVal fuel s with
      | .error e => .error e
      | .ok (v, r) =>
        match skipWs r with
        | ',' :: r2 => (parseElems fuel r2).map (fun p => (v :: p.1, p.2))
        | ']' :: r2 => .ok ([v], r2)
        | _ => .error PyErr.jsonDecodeError := rfl

theorem parse_complete : ∀ fuel,
    (∀ v s rest, jfuel v ≤ fuel → numStop rest → wfJ v = true →
      skipWs s = dumps v ++ rest → parseVal fuel s = .ok (v, rest)) ∧
    (∀ x xs s rest, jfuelArr (x :: xs) + 1 ≤ fuel → wfArr (x :: xs) = true →
      skipWs s = dumpsArr (x :: xs) ++ ']' :: rest →
      parseElems fuel s = .ok (x :: xs, rest)) ∧
    (∀ k v kvs rest, jfuelObj ((k, v) :: kvs) + 1 ≤ fuel →
      wfObj ((k, v) :: kvs) = true →
      parseMembers fuel (dumpsObj ((k, v) :: kvs) ++ '}' :: rest) =
        .ok ((k, v) :: kvs, rest)) := by
  intro fuel
  induction fuel with
  | zero =>
    exact ⟨fun v s rest h1 _ _ _ => absurd h1 (by have := jfuel_pos v; omega),
      fun x xs s rest h1 _ _ => absurd h1 (by omega),
      fun k v kvs rest h1 _ => absurd h1 (by omega)⟩
  | succ fuel ih =>
    obtain ⟨ihv, ihe, ihm⟩ := ih
    have part1 : ∀ v s rest, jfuel v ≤ fuel + 1 → numStop rest → wfJ v = true →
        skipWs s = dumps v ++ rest → parseVal (fuel + 1) s = .ok (v, rest) := by
      intro v s rest hfu hstop hwf hs
      rw [parseVal_succ]
      cases v with
      | null =>
        rw [show skipWs s = 'n' :: 'u' :: 'l' :: 'l' :: rest from by rw [hs]; rfl]
        rfl
      | bool b =>
        cases b with
        | true =>
          rw [show skipWs s = 't' :: 'r' :: 'u' :: 'e' :: rest from by rw [hs]; rfl]
          rfl
        | false =>
          rw [show skipWs s = 'f' :: 'a' :: 'l' :: 's' :: 'e' :: rest from by
            rw [hs]; rfl]
          rfl
      | jstr s' =>
        rw [show skipWs s = '"' :: ((s'.map escapeChar).flatten ++ '"' :: rest) from by
          rw [hs]
          show dumpStr s' ++ rest = _
          simp [dumpStr]]
        show (parseStrBody fuel ((s'.map escapeChar).flatten ++ '"' :: rest)).map
          (fun p => (JVal.jstr p.1, p.2)) = Except.ok (JVal.jstr s', rest)
        rw [parseStrBody_escape s' fuel rest (by
          have hj : jfuel (JVal.jstr s') = s'.length + 2 := rfl
          omega)]
        rfl
      | int n =>
        cases n with
        | ofNat m =>
          obtain ⟨c, cs, hcs⟩ := natToDigitsAux_cons m m
          have hcd : isDigit c = true :=
            natToDigitsAux_all_digit m m c (by rw [hcs]; exact List.mem_cons_self c cs)
          have hcb := isDigit_toNat hcd
          rw [show skipWs s = c :: (cs ++ rest) from by
            rw [hs]
            show (natToDigits m : Str) ++ rest = _
            rw [show natToDigits m = c :: cs from hcs]
            rfl]
          show (if c = 'n' then expectLit (str "ull") JVal.null (cs ++ rest)
            else if c = 't' then expectLit (str "rue") (JVal.bool true) (cs ++ rest)
            else if c = 'f' then expectLit (str "alse") (JVal.bool false) (cs ++ rest)
            else if c = '"' then (parseStrBody fuel (cs ++ rest)).map
              (fun p => (JVal.jstr p.1, p.2))
            else if c = '[' then
              match skipWs (cs ++ rest) with
              | ']' :: r2 => Except.ok (JVal.arr [], r2)
              | r2 => (parseElems fuel r2).map (fun p => (JVal.arr p.1, p.2))
            else if c = '{' then
              match skipWs (cs ++ rest) with
              | '}' :: r2 => Except.ok (JVal.obj [], r2)
              | r2 => (parseMembers fuel r2).map
                  (fun p => (JVal.obj (buildDict p.1), p.2))
            else if c = '-' then (parseUIntTok (cs ++ rest)).map
              (fun p => (JVal.int (-(p.1 : Int)), p.2))
            else if isDigit c then (parseUIntTok (c :: (cs ++ rest))).map
              (fun p => (JVal.int (p.1 : Int), p.2))
            else Except.error PyErr.jsonDecodeError) =
            Except.ok (JVal.int (Int.ofNat m), rest)
          rw [if_neg (char_ne_of_toNat_ne (show c.toNat ≠ 110 by omega)),
            if_neg (char_ne_of_toNat_ne (show c.toNat ≠ 116 by omega)),
            if_neg (char_ne_of_toNat_ne (show c.toNat ≠ 102 by omega)),
            if_neg (char_ne_of_toNat_ne (show c.toNat ≠ 34 by omega)),
            if_neg (char_ne_of_toNat_ne (show c.toNat ≠ 91 by omega)),
            if_neg (char_ne_of_toNat_ne (show c.toNat ≠ 123 by omega)),
            if_neg (char_ne_of_toNat_ne (show c.toNat ≠ 45 by omega)),
            if_pos hcd]
          rw [show c :: (cs ++ rest) = natToDigits m ++ rest from by
            rw [show natToDigits m = c :: cs from hcs]; rfl]
          rw [parseUIntTok_natToDigits m hstop]
          rfl
        | negSucc m =>
          rw [show skipWs s = '-' :: (natToDigits (m + 1) ++ rest) from by
            rw [hs]; rfl]
          show (parseUIntTok (natToDigits (m + 1) ++ rest)).map
            (fun p => (JVal.int (-(p.1 : Int)), p.2)) =
            Except.ok (JVal.int (Int.negSucc m), rest)
          rw [parseUIntTok_natToDigits (m + 1) hstop]
          rfl
      | arr xs =>
        match xs with
        | [] =>
          rw [show skipWs s = '[' :: ']' :: rest from by rw [hs]; rfl]
          rfl
        | x :: xs =>
          have hwfarr : wfArr (x :: xs) = true := hwf
          have hfa : jfuelArr (x :: xs) + 1 ≤ fuel := by
            have hj : jfuel (JVal.arr (x :: xs)) = 2 + jfuelArr (x :: xs) := rfl
            omega
          rw [show skipWs s = '[' :: (dumpsArr (x :: xs) ++ ']' :: rest) from by
            rw [hs]
            show ('[' :: dumpsArr (x :: xs) ++ [']']) ++ rest = _
            simp]
          have hsk : skipWs (dumpsArr (x :: xs) ++ ']' :: rest) =
              dumpsArr (x :: xs) ++ ']' :: rest := by
            rw [dumpsArr_cons, List.append_assoc]
            exact skipWs_dumps x _
          show (match skipWs (dumpsArr (x :: xs) ++ ']' :: rest) with
            | ']' :: r2 => Except.ok (JVal.arr [], r2)
            | r2 => (parseElems fuel r2).map (fun p => (JVal.arr p.1, p.2))) =
            Except.ok (JVal.arr (x :: xs), rest)
          rw [hsk]
          obtain ⟨c0, t0, hc0, _, hc0b⟩ := dumps_head x
          have hscr : dumpsArr (x :: xs) ++ ']' :: rest =
              c0 :: (t0 ++ (arrTail xs ++ ']' :: rest)) := by
            rw [dumpsArr_cons, hc0]
            simp
          split
          · rename_i r2 heq
            rw [hscr] at heq
            exact absurd (List.head_eq_of_cons_eq heq) hc0b
          · rw [ihe x xs (dumpsArr (x :: xs) ++ ']' :: rest) rest hfa hwfarr hsk]
            rfl
      | obj kvs =>
        match kvs with
        | [] =>
          rw [show skipWs s = '{' :: '}' :: rest from by rw [hs]; rfl]
          rfl
        | (k, v) :: kvs =>
          have hwfsplit : nodupKeys (((k, v) :: kvs).map Prod.fst) = true ∧
              wfObj ((k, v) :: kvs) = true := by
            have hw : wfJ (JVal.obj ((k, v) :: kvs)) =
              (nodupKeys (((k, v) :: kvs).map Prod.fst) && wfObj ((k, v) :: kvs)) := rfl
            rw [hw, Bool.and_eq_true] at hwf
            exact hwf
          have hfo : jfuelObj ((k, v) :: kvs) + 1 ≤ fuel := by
            have hj : jfuel (JVal.obj ((k, v) :: kvs)) =
              2 + jfuelObj ((k, v) :: kvs) := rfl
            omega
          rw [show skipWs s = '{' :: (dumpsObj ((k, v) :: kvs) ++ '}' :: rest) from by
            rw [hs]
            show ('{' :: dumpsObj ((k, v) :: kvs) ++ ['}']) ++ rest = _
            simp]
          have hsk : skipWs (dumpsObj ((k, v) :: kvs) ++ '}' :: rest) =
              dumpsObj ((k, v) :: kvs) ++ '}' :: rest :=
            dumpsObj_skipWs (k, v) kvs _
          show (match skipWs (dumpsObj ((k, v) :: kvs) ++ '}' :: rest) with
            | '}' :: r2 => Except.ok (JVal.obj [], r2)
            | r2 => (parseMembers fuel r2).map
                (fun p => (JVal.obj (buildDict p.1), p.2))) =
            Except.ok (JVal.obj ((k, v) :: kvs), rest)
          rw [hsk]
          have hscr : dumpsObj ((k, v) :: kvs) ++ '}' :: rest =
              '"' :: (((k.map escapeChar).flatten ++ ['"']) ++
                (':' :: ' ' :: (dumps v ++ objSep kvs) ++ '}' :: rest)) := by
            rw [dumpsObj_cons]
            show (('"' :: ((k.map escapeChar).flatten ++ ['"'])) ++ _) ++ _ = _
            simp
          split
          · rename_i r2 heq
            rw [hscr] at heq
            exact absurd (List.head_eq_of_cons_eq heq) (by decide)
          · rw [ihm k v kvs rest hfo hwfsplit.2]
            have hnodup : (((k, v) :: kvs).map Prod.fst).Nodup :=
              (nodupKeys_iff _).mp hwfsplit.1
            show Except.ok (JVal.obj (buildDict ((k, v) :: kvs)), rest) = _
            rw [buildDict_nodup hnodup]
    have part2 : ∀ x xs s rest, jfuelArr (x :: xs) + 1 ≤ fuel + 1 →
        wfArr (x :: xs) = true → skipWs s = dumpsArr (x :: xs) ++ ']' :: rest →
        parseElems (fuel + 1) s = .ok (x :: xs, rest) := by
      intro x xs s rest hfu hwf hs
      have hsv : skipWs s = dumps x ++ (arrTail xs ++ ']' :: rest) := by
        rw [hs, dumpsArr_cons, List.append_assoc]
      have hnum : numStop (arrTail xs ++ ']' :: rest) := by
        cases xs with
        | nil =>
          exact numStop_of_head ']' rest (by decide) (by decide) (by decide) (by decide)
        | cons y ys =>
          exact numStop_of_head ',' _ (by decide) (by decide) (by decide) (by decide)
      have hwx : wfJ x = true := by
        have hw : wfArr (x :: xs) = (wfJ x && wfArr xs) := rfl
        rw [hw, Bool.and_eq_true] at hwf
        exact hwf.1
      have hfx : jfuel x ≤ fuel := by
        have h1 : jfuelArr (x :: xs) = jfuel x + jfuelArr xs := rfl
        omega
      rw [parseElems_succ]
      rw [ihv x s (arrTail xs ++ ']' :: rest) hfx hnum hwx hsv]
      show (match skipWs (arrTail xs ++ ']' :: rest) with
        | ',' :: r2 => (parseElems fuel r2).map (fun p => (x :: p.1, p.2))
        | ']' :: r2 => Except.ok ([x], r2)
        | _ => Except.error PyErr.jsonDecodeError) = Except.ok (x :: xs, rest)
      cases xs with
      | nil => rfl
      | cons y ys =>
        show (parseElems fuel (' ' :: (dumpsArr (y :: ys) ++ ']' :: rest))).map
          (fun p => (x :: p.1, p.2)) = Except.ok (x :: y :: ys, rest)
        have hs2 : skipWs (' ' :: (dumpsArr (y :: ys) ++ ']' :: rest)) =
            dumpsArr (y :: ys) ++ ']' :: rest := by
          rw [skipWs_cons_ws (by decide) _, dumpsArr_cons, List.append_assoc,
            skipWs_dumps y (arrTail ys ++ ']' :: rest), ← List.append_assoc,
            ← dumpsArr_cons]
        have hffuel : jfuelArr (y :: ys) + 1 ≤ fuel := by
          have h1 : jfuelArr (x :: y :: ys) = jfuel x + jfuelArr (y :: ys) := rfl
          have := jfuel_pos x
          omega
        have hwfr : wfArr (y :: ys) = true := by
          have hw : wfArr (x :: y :: ys) = (wfJ x && wfArr (y :: ys)) := rfl
          rw [hw, Bool.and_eq_true] at hwf
          exact hwf.2
        rw [ihe y ys (' ' :: (dumpsArr (y :: ys) ++ ']' :: rest)) rest hffuel hwfr hs2]
        rfl
    have part3 : ∀ k v kvs rest, jfuelObj ((k, v) :: kvs) + 1 ≤ fuel + 1 →
        wfObj ((k, v) :: kvs) = true →
        parseMembers (fuel + 1) (dumpsObj ((k, v) :: kvs) ++ '}' :: rest) =
          .ok ((k, v) :: kvs, rest) := by
      intro k v kvs rest hfu hwf
      have hjo : jfuelObj ((k, v) :: kvs) =
          k.length + jfuel v + 2 + jfuelObj kvs := rfl
      have hwv : wfJ v = true := by
        have hw : wfObj ((k, v) :: kvs) = (wfJ v && wfObj kvs) := rfl
        rw [hw, Bool.and_eq_true] at hwf
        exact hwf.1
      have hform : dumpsObj ((k, v) :: kvs) ++ '}' :: rest =
          '"' :: ((k.map escapeChar).flatten ++ '"' ::
            (':' :: ' ' :: (dumps v ++ (objSep kvs ++ '}' :: rest)))) := by
        rw [dumpsObj_cons]
        show (('"' :: ((k.map escapeChar).flatten ++ ['"'])) ++ _) ++ _ = _
        simp
      rw [hform]
      show (match parseStrBody fuel ((k.map escapeChar).flatten ++ '"' ::
          (':' :: ' ' :: (dumps v ++ (objSep kvs ++ '}' :: rest)))) with
        | .error e => Except.error e
        | .ok (k2, r1) =>
          match skipWs r1 with
          | ':' :: r2 =>
            (match parseVal fuel r2 with
            | .error e => Except.error e
            | .ok (v2, r3) =>
              match skipWs r3 with
              | ',' :: r4 => (parseMembers fuel (skipWs r4)).map
                  (fun p => ((k2, v2) :: p.1, p.2))
              | '}' :: r4 => Except.ok ([(k2, v2)], r4)
              | _ => Except.error PyErr.jsonDecodeError)
          | _ => Except.error PyErr.jsonDecodeError) =
        Except.ok ((k, v) :: kvs, rest)
      rw [parseStrBody_escape k fuel
        (':' :: ' ' :: (dumps v ++ (objSep kvs ++ '}' :: rest))) (by
          have := jfuel_pos v
          omega)]
      have hsv2 : skipWs (' ' :: (dumps v ++ (objSep kvs ++ '}' :: rest))) =
          dumps v ++ (objSep kvs ++ '}' :: rest) := by
        rw [skipWs_cons_ws (by decide) _]
        exact skipWs_dumps v _
      have hnum2 : numStop (objSep kvs ++ '}' :: rest) := by
        cases kvs with
        | nil =>
          exact numStop_of_head '}' rest (by decide) (by decide) (by decide) (by decide)
        | cons p ps =>
          exact numStop_of_head ',' _ (by decide) (by decide) (by decide) (by decide)
      have hfv : jfuel v ≤ fuel := by omega
      show (match parseVal fuel (' ' :: (dumps v ++ (objSep kvs ++ '}' :: rest))) with
        | .error e => Except.error e
        | .ok (v2, r3) =>
          match skipWs r3 with
          | ',' :: r4 => (parseMembers fuel (skipWs r4)).map
              (fun p => ((k, v2) :: p.1, p.2))
          | '}' :: r4 => Except.ok ([(k, v2)], r4)
          | _ => Except.error PyErr.jsonDecodeError) = Except.ok ((k, v) :: kvs, rest)
      rw [ihv v (' ' :: (dumps v ++ (objSep kvs ++ '}' :: rest)))
        (objSep kvs ++ '}' :: rest) hfv hnum2 hwv hsv2]
      show (match skipWs (objSep kvs ++ '}' :: rest) with
        | ',' :: r4 => (parseMembers fuel (skipWs r4)).map
            (fun p => ((k, v) :: p.1, p.2))
        | '}' :: r4 => Except.ok ([(k, v)], r4)
        | _ => Except.error PyErr.jsonDecodeError) = Except.ok ((k, v) :: kvs, rest)
      cases kvs with
      | nil => rfl
      | cons p ps =>
        show (parseMembers fuel (skipWs (' ' :: (dumpsObj (p :: ps) ++ '}' :: rest)))).map
          (fun q => ((k, v) :: q.1, q.2)) = Except.ok ((k, v) :: p :: ps, rest)
        have hski : skipWs (' ' :: (dumpsObj (p :: ps) ++ '}' :: rest)) =
            dumpsObj (p :: ps) ++ '}' :: rest := by
          rw [skipWs_cons_ws (by decide) _]
          exact dumpsObj_skipWs p ps _
        rw [hski]
        match p with
        | (k2, v2) =>
          have hrecfuel : jfuelObj ((k2, v2) :: ps) + 1 ≤ fuel := by
            have hx : jfuelObj ((k, v) :: (k2, v2) :: ps) =
              k.length + jfuel v + 2 + jfuelObj ((k2, v2) :: ps) := rfl
            have := jfuel_pos v
            omega
          have hwrec : wfObj ((k2, v2) :: ps) = true := by
            have hw : wfObj ((k, v) :: (k2, v2) :: ps) =
              (wfJ v && wfObj ((k2, v2) :: ps)) := rfl
            rw [hw, Bool.and_eq_true] at hwf
            exact hwf.2
          rw [ihm k2 v2 ps rest hrecfuel hwrec]
          rfl
    exact ⟨part1, part2, part3⟩


/-- Well-formed values survive the print/parse round trip exactly. -/
theorem loads_dumps {v : JVal} (hwf : wfJ v = true) : loads (dumps v) = .ok v := by
  unfold loads
  have hfuel := jfuel_le_dumps v
  have hc := (parse_complete ((dumps v).length + 1)).1 v (dumps v) []
    (by omega) trivial hwf (by simpa using skipWs_dumps v [])
  rw [hc]
  rfl


/-! ## TransportData (`responsehandler.py` lines 7–46) -/

/-- The argument types `TransportData.from_any` accepts (its `Union` hint).
A value of any other type raises `TypeError`, which the model makes
unrepresentable. -/
inductive AnyData where
  | bytes (b : List Nat) : AnyData
  | dict (kvs : List (Str × JVal)) : AnyData
  | pystr (s : Str) : AnyData

/-- The dataclass of `responsehandler.py`: one message in three views. -/
structure TransportData where
  as_bytes : List Nat
  as_dict : JVal
  as_str : Str

/-- `TransportData.from_bytes`. -/
def TransportData.from_bytes (data : List Nat) : Except PyErr TransportData :=
  match utf8Decode data with
  | none => .error .unicodeDecodeError
  | some as_str =>
    match loads as_str with
    | .error e => .error e
    | .ok d => .ok ⟨data, d, as_str⟩

/-- `TransportData.from_dict` (`json.dumps` of a JSON-representable tree
never raises, so this is total). -/
def TransportData.from_dict (d : JVal) : TransportData :=
  ⟨utf8Encode (dumps d), d, dumps d⟩

/-- `TransportData.from_str`. -/
def TransportData.from_str (data : Str) : Except PyErr TransportData :=
  match loads data with
  | .error e => .error e
  | .ok d => .ok ⟨utf8Encode data, d, data⟩

/-- `TransportData.from_any`. -/
def TransportData.from_any : AnyData → Except PyErr TransportData
  | .bytes b => TransportData.from_bytes b
  | .dict kvs => .ok (TransportData.from_dict (.obj kvs))
  | .pystr s => TransportData.from_str s

/-- `ResponseHandler.prepare_json_outgoing` (lines 74–79) on a non-
`TransportData` argument: normalize through `from_any`, record the result
(the `current_outgoing` assignment, returned here as the first component),
and emit `(data.as_str + '\n').encode('utf-8')`. -/
def prepare_json_outgoing (data : AnyData) : Except PyErr (TransportData × List Nat) :=
  match TransportData.from_any data with
  | .error e => .error e
  | .ok td => .ok (td, utf8Encode (td.as_str ++ [nl]))

/-- `prepare_json_outgoing` when handed an already-built `TransportData`
(the `isinstance` branch skips normalization). -/
def prepare_json_outgoing_td (td : TransportData) : TransportData × List Nat :=
  (td, utf8Encode (td.as_str ++ [nl]))

/-! ## Python dict/list primitives used by the responder -/

def alistGet? : List (Str × JVal) → Str → Option JVal
  | [], _ => none
  | (k2, v) :: kvs, k => if k2 = k then some v else alistGet? kvs k

/-- Python `obj[key]` with a string key: `KeyError` when the key is absent,
`TypeError` when `obj` is not a dict. -/
def pyGetItem (v : JVal) (k : Str) : Except PyErr JVal :=
  match v with
  | .obj kvs =>
    match alistGet? kvs k with
    | some x => .ok x
    | none => .error .keyError
  | _ => .error .typeError

/-- Python `key in obj` for a string key: key test on dicts, membership on
lists, substring test on strings, `TypeError` otherwise. -/
def pyContains (container : JVal) (k : Str) : Except PyErr Bool :=
  match container with
  | .obj kvs => .ok (kvs.any (fun kv => kv.1 = k))
  | .arr xs => .ok (xs.any (fun x => JVal.beq x (.jstr k)))
  | .jstr s => .ok (decide (List.IsInfix k s))
  | _ => .error .typeError

/-- Python `d[key] = value`: in-place update, position-preserving on an
existing key; `TypeError` on non-dicts. -/
def pySetItem (v : JVal) (k : Str) (x : JVal) : Except PyErr JVal :=
  match v with
  | .obj kvs => .ok (.obj (dictInsert kvs k x))
  | _ => .error .typeError

/-- Python `xs[0]`: head of a list (or one-character string of a string),
`IndexError` when empty, `TypeError`/`KeyError` on other types. -/
def pyIndex0 (v : JVal) : Except PyErr JVal :=
  match v with
  | .arr (x :: _) => .ok x
  | .arr [] => .error .indexError
  | .jstr (c :: _) => .ok (.jstr [c])
  | .jstr [] => .error .indexError
  | .obj _ => .error .keyError
  | _ => .error .typeError

/-! ## The classifier (`responsehandler.py` lines 96–126; the
`determine_analyzer_type` of `socketclient.py` lines 27–57 is textually
identical) -/

/-- `DefaultResponder.determine_analyzer_type`. -/
def determine_analyzer_type (decoded : JVal) : Except PyErr (Option Str) :=
  match pyGetItem decoded (str "type") with
  | .error e => .error e
  | .ok t =>
    if !JVal.beq t (.jstr (str "frame")) then .ok none
    else
      match pyGetItem decoded (str "frame-type") with
      | .error e => .error e
      | .ok ft =>
        match pyGetItem decoded (str "data") with
        | .error e => .error e
        | .ok data =>
          if JVal.beq data .null then .ok none
          else if JVal.beq ft (.jstr (str "data")) then
            match pyContains data (str "ack") with
            | .error e => .error e
            | .ok hasAck =>
              if !hasAck then .ok (some (str "async-serial"))
              else .ok (some (str "i2c"))
          else if JVal.beq ft (.jstr (str "address")) ||
              JVal.beq ft (.jstr (str "start")) ||
              JVal.beq ft (.jstr (str "stop")) then
            .ok (some (str "i2c"))
          else if JVal.beq ft (.jstr (str "enable")) ||
              JVal.beq ft (.jstr (str "disable")) ||
              JVal.beq ft (.jstr (str "result")) ||
              JVal.beq ft (.jstr (str "error")) then
            .ok (some (str "spi"))
          else .ok none

/-! ## The async-serial decoder (`responsehandler.py` lines 90–94) -/

def hexCharU : Nat → Char
  | 0 => '0' | 1 => '1' | 2 => '2' | 3 => '3' | 4 => '4'
  | 5 => '5' | 6 => '6' | 7 => '7' | 8 => '8' | 9 => '9'
  | 10 => 'A' | 11 => 'B' | 12 => 'C' | 13 => 'D' | 14 => 'E' | _ => 'F'

/-- Uppercase hex digits of `n`; first argument is recursion fuel. -/
def natHexAux : Nat → Nat → Str
  | 0, n => [hexCharU n]
  | fuel + 1, n =>
    if n < 16 then [hexCharU n]
    else natHexAux fuel (n / 16) ++ [hexCharU (n % 16)]

/-- Python `"0x{:02X}".format(n)`: `0x`, then the uppercase hex digits
zero-padded to width two (a negative value keeps its sign and is only
padded within the same width). -/
def formatHex02 (n : Int) : Str :=
  match n with
  | .ofNat m =>
    let ds := natHexAux m m
    str "0x" ++ (if ds.length < 2 then '0' :: ds else ds)
  | .negSucc m => str "0x" ++ '-' :: natHexAux (m + 1) (m + 1)

/-- The value the format spec `X` accepts: an `int` (a Python `bool` is an
`int` subclass and formats as 0 or 1); everything else raises. -/
def jvalAsInt : JVal → Except PyErr Int
  | .int n => .ok n
  | .bool b => .ok (if b then 1 else 0)
  | _ => .error .valueError

/-- `DefaultResponder.decode_async_serial`, with its in-place mutation of
the argument made explicit: the result is the state of the `decoded` dict
after the call (the function mutates and returns the same object), paired
with the exception if one was raised part-way.  `decoded['frame-type']`
is assigned first; the hex formatting of `decoded['data']['data'][0]` is
evaluated next, and only if it succeeds is `decoded['data']['text']`
assigned (through the shared inner `data` dict). -/
def decode_async_serial_steps (decoded : JVal) : JVal × Option PyErr :=
  match pySetItem decoded (str "frame-type") (.jstr (str "text")) with
  | .error e => (decoded, some e)
  | .ok d1 =>
    match pyGetItem d1 (str "data") with
    | .error e => (d1, some e)
    | .ok datav =>
      match pyGetItem datav (str "data") with
      | .error e => (d1, some e)
      | .ok arrv =>
        match pyIndex0 arrv with
        | .error e => (d1, some e)
        | .ok firstv =>
          match jvalAsInt firstv with
          | .error e => (d1, some e)
          | .ok n =>
            match pySetItem datav (str "text") (.jstr (formatHex02 n)) with
            | .error e => (d1, some e)
            | .ok datav2 =>
              match pySetItem d1 (str "data") datav2 with
              | .error e => (d1, some e)
              | .ok d2 => (d2, none)

/-- The call-and-return view of `decode_async_serial`:  the returned value
is the mutated message, or the raised exception. -/
def decode_async_serial (decoded : JVal) : Except PyErr JVal :=
  match decode_async_serial_steps decoded with
  | (_, some e) => .error e
  | (d, none) => .ok d


/-! ## The DefaultResponder session (`responsehandler.py` lines 49–143)

The handler's mutable fields are threaded as an explicit state; the bytes
reply `handle_incoming_response` returns is wrapped in `Option`, `none`
modeling the `None` return the `ResponseHandler` contract allows (the
`NullResponder` uses it; the `DefaultResponder` never does). -/

/-- The mutable fields of a `DefaultResponder` the handler reads or
writes (`tracking_frame` and `previous_data` are never touched). -/
structure DState where
  analyzer_type : Option Str
  current_incoming : Option TransportData
  current_outgoing : Option TransportData

/-- The field values `__init__` sets. -/
def DState.init : DState := ⟨none, none, none⟩

/-- The reply on an unclassified message (line 135): `decoded` is
re-serialized by `prepare_json_outgoing` (a dict, so through `from_dict`)
and echoed back. -/
def respondEcho (st : DState) (decoded : JVal) :
    DState × Except PyErr (Option (List Nat)) :=
  let td2 := TransportData.from_dict decoded
  ({ st with current_outgoing := some td2 },
    .ok (some (utf8Encode (td2.as_str ++ [nl]))))

/-- The `decode_map['async-serial']` branch of line 142: the decoder
mutates the message in place, so the stored `current_incoming`, whose
`as_dict` is the same object, sees the update (while its `as_bytes` and
`as_str` keep the received text); on success the mutated dict is prepared
as the reply, and an exception raised inside the decoder propagates. -/
def respondAsyncSerial (st : DState) (td : TransportData) :
    DState × Except PyErr (Option (List Nat)) :=
  match decode_async_serial_steps td.as_dict with
  | (d2, some e) =>
    ({ st with current_incoming := some { td with as_dict := d2 } }, .error e)
  | (d2, none) =>
    let td3 := TransportData.from_dict d2
    ({ st with current_incoming := some { td with as_dict := d2 },
               current_outgoing := some td3 },
      .ok (some (utf8Encode (td3.as_str ++ [nl]))))

/-- The `decode_map.get` fallback of line 142 (a sticky type with no
registered decoder): the default is `prepare_json_outgoing` itself, so
the message is prepared twice — the bytes of the inner call are
normalized through `from_bytes` by the outer call and prepared again. -/
def respondFallback (st : DState) (decoded : JVal) :
    DState × Except PyErr (Option (List Nat)) :=
  let tdA := TransportData.from_dict decoded
  let stA := { st with current_outgoing := some tdA }
  match TransportData.from_bytes (utf8Encode (tdA.as_str ++ [nl])) with
  | .error e => (stA, .error e)
  | .ok tdB =>
    ({ stA with current_outgoing := some tdB },
      .ok (some (utf8Encode (tdB.as_str ++ [nl]))))

/-- `DefaultResponder.handle_incoming_response` (lines 128–143).  `recv`
is the message text the listener hands over; `prepare_json_incoming`
normalizes it through `from_str` and stores it as `current_incoming`;
classification is attempted on every message; `analyzer_type` is assigned
only when it is still `None`; the decode function is looked up under the
stored `analyzer_type`. -/
def handle_incoming_response (st : DState) (recv : Str) :
    DState × Except PyErr (Option (List Nat)) :=
  match TransportData.from_str recv with
  | .error e => (st, .error e)
  | .ok td =>
    let st1 := { st with current_incoming := some td }
    match determine_analyzer_type td.as_dict with
    | .error e => (st1, .error e)
    | .ok none => respondEcho st1 td.as_dict
    | .ok (some det) =>
      let aty := st1.analyzer_type.getD det
      let st2 := { st1 with analyzer_type := some aty }
      if aty = str "async-serial" then respondAsyncSerial st2 td
      else respondFallback st2 td.as_dict

/-- `NullResponder.handle_incoming_response`: the contract's absent
reply. -/
def null_responder_handle (recv : Str) : Option (List Nat) := none

/-! ## The socketclient handler (`socketclient.py` lines 12–89)

Same dispatch, but the only mutable field read is `analyzer_type`, and
the fallback of `decode_map.get` is `prepare_json_for_response`, which
returns a `bytes` argument unchanged — so the fallback reply is prepared
once, not twice. -/

/-- `ResponseHandler.handle_response` of `socketclient.py`. -/
def sc_handle_response (analyzer_type : Option Str) (recv : Str) :
    Option Str × Except PyErr (Option (List Nat)) :=
  match loads recv with
  | .error e => (analyzer_type, .error e)
  | .ok decoded =>
    match determine_analyzer_type decoded with
    | .error e => (analyzer_type, .error e)
    | .ok none => (analyzer_type, .ok (some (utf8Encode (dumps decoded ++ [nl]))))
    | .ok (some det) =>
      let aty := analyzer_type.getD det
      if aty = str "async-serial" then
        match decode_async_serial decoded with
        | .error e => (some aty, .error e)
        | .ok r => (some aty, .ok (some (utf8Encode (dumps r ++ [nl]))))
      else
        (some aty, .ok (some (utf8Encode (dumps decoded ++ [nl]))))

/-! ## The frame reader (`socketclient.py` lines 108–141; the copies in
`socketsink.py` lines 35–68, `socketserver.py` lines 40–64 and
`saleaesocketsource.py` differ only in the timeout check)

The byte stream is modeled as the finite list of text chunks successive
`recv` calls deliver. -/

/-- Python `str.split('\n')`: `''.split` gives `['']`, and a trailing
separator leaves an empty final entry. -/
def splitNl : Str → List Str
  | [] => [[]]
  | c :: cs =>
    if c = nl then [] :: splitNl cs
    else
      match splitNl cs with
      | [] => [[c]]
      | p :: ps => (c :: p) :: ps

/-- One call of `rx_data_until_newline` starting from accumulator text
`acc`: consume chunks until one contains a newline, then split, prepend
the accumulated text to the first piece, and return the completed
messages (`accumulator[0:-1]`), the new residual (`accumulator[-1]`) and
the chunks the loop did not read.  `.inr a` is the call still blocked in
`recv` when the chunk list runs out, having absorbed `a`. -/
def rx_data_until_newline (acc : Str) :
    List Str → ((List Str × Str) × List Str) ⊕ Str
  | [] => .inr acc
  | data :: rest =>
    if nl ∈ data then
      let split_data := splitNl data
      let accumulator := (acc ++ split_data.headI) :: split_data.tail
      .inl ((accumulator.dropLast, accumulator.getLastD []), rest)
    else rx_data_until_newline (acc ++ data) rest

/-- The listener loop's use of the reader: call `rx_data_until_newline`,
thread the returned residual into the next call, and collect the
completed messages in order, until the chunk stream runs out mid-call;
the final residual is then the text the pending call has absorbed.  Fuel
bounds the number of calls; each completed call consumes at least one
chunk, so `chunks.length + 1` always suffices. -/
def rxThread : Nat → Str → List Str → List Str × Str
  | 0, acc, _ => ([], acc)
  | fuel + 1, acc, chunks =>
    match rx_data_until_newline acc chunks with
    | .inr pending => ([], pending)
    | .inl ((msgs, acc2), rest) =>
      let r := rxThread fuel acc2 rest
      (msgs ++ r.1, r.2)

/-! ## Response selection (`socketserver.py` lines 263–273) -/

/-- The reduction of the frame reader's message list to the single
authoritative reply in `SocketTransport.decode`: a singleton is used
as-is; otherwise `missed_packets` grows by `len(response) - 1`, the
warning is printed (the returned flag), and `response[-1]` is used —
which raises `IndexError` on an empty list, after the counter was
already updated. -/
def select_response (missed_packets : Int) (response : List Str) :
    Int × Except PyErr (Str × Bool) :=
  if response.length = 1 then
    (missed_packets, .ok (response.headI, false))
  else
    let missed2 := missed_packets + ((response.length : Int) - 1)
    match response.getLast? with
    | none => (missed2, .error .indexError)
    | some lastMsg => (missed2, .ok (lastMsg, true))


/-! ## Small facts about the Python primitives -/

theorem beq_jstr_jstr (a b : Str) : JVal.beq (.jstr a) (.jstr b) = decide (a = b) := rfl

theorem beq_null_iff (v : JVal) : JVal.beq v .null = true ↔ v = .null := by
  cases v <;> simp [JVal.beq]

theorem beq_null_false_of_contains (data : JVal) (k : Str) (b : Bool)
    (h : pyContains data k = .ok b) : JVal.beq data .null = false := by
  cases data <;> first | rfl | exact Except.noConfusion h

theorem alistGet?_dictInsert_self (l : List (Str × JVal)) (k : Str) (v : JVal) :
    alistGet? (dictInsert l k v) k = some v := by
  induction l with
  | nil => simp [dictInsert, alistGet?]
  | cons kv l ih =>
    obtain ⟨k2, v2⟩ := kv
    unfold dictInsert
    by_cases h : k2 = k
    · rw [if_pos h]; unfold alistGet?; rw [if_pos h]
    · rw [if_neg h]; unfold alistGet?; rw [if_neg h]; exact ih

theorem alistGet?_dictInsert_ne (l : List (Str × JVal)) (k k' : Str) (v : JVal)
    (hne : k' ≠ k) : alistGet? (dictInsert l k v) k' = alistGet? l k' := by
  induction l with
  | nil =>
    unfold dictInsert alistGet?
    rw [if_neg (fun e => hne e.symm)]
    rfl
  | cons kv l ih =>
    obtain ⟨k2, v2⟩ := kv
    unfold dictInsert
    by_cases h : k2 = k
    · rw [if_pos h]
      unfold alistGet?
      rw [if_neg (fun e => hne (h ▸ e).symm), if_neg (fun e => hne (h ▸ e).symm)]
    · rw [if_neg h]
      unfold alistGet?
      by_cases h2 : k2 = k'
      · rw [if_pos h2, if_pos h2]
      · rw [if_neg h2, if_neg h2]; exact ih

/-! ## Trial claim theorems -/

/-- Claim C6: for every input `TransportData.from_any` accepts — a
UTF-8-decodable byte sequence whose text is valid JSON, a dict (which in
Python necessarily has distinct keys, recursively: the `wfJ` hypothesis),
or a string that is valid JSON — the constructed views are mutually
consistent: `as_str` is `as_bytes` decoded as UTF-8, and `as_dict` is
`as_str` parsed as JSON. -/
theorem transport_data_views_consistent (a : AnyData) (td : TransportData)
    (hwf : ∀ kvs, a = .dict kvs → wfJ (.obj kvs) = true)
    (h : TransportData.from_any a = .ok td) :
    utf8Decode td.as_bytes = some td.as_str ∧ loads td.as_str = .ok td.as_dict := by
  cases a with
  | bytes b =>
    simp only [TransportData.from_any] at h
    unfold TransportData.from_bytes at h
    cases hs : utf8Decode b with
    | none => rw [hs] at h; exact Except.noConfusion h
    | some s =>
      rw [hs] at h
      dsimp only at h
      cases hl : loads s with
      | error e => rw [hl] at h; exact Except.noConfusion h
      | ok d =>
        rw [hl] at h
        dsimp only at h
        cases h
        exact ⟨hs, hl⟩
  | dict kvs =>
    simp only [TransportData.from_any] at h
    cases h
    exact ⟨utf8Decode_utf8Encode _, loads_dumps (hwf kvs rfl)⟩
  | pystr s =>
    simp only [TransportData.from_any] at h
    unfold TransportData.from_str at h
    cases hl : loads s with
    | error e => rw [hl] at h; exact Except.noConfusion h
    | ok d =>
      rw [hl] at h
      dsimp only at h
      cases h
      exact ⟨utf8Decode_utf8Encode s, hl⟩

/-- Claim C7: producing the outbound wire bytes for a dict d (the
`prepare_json_outgoing` of `TransportData.from_dict d`), the bytes decode
to the serialized text whose last character is the one appended newline,
and stripping it and parsing the remainder reproduces d exactly. -/
theorem outgoing_roundtrip (d : JVal) (hwf : wfJ d = true) :
    utf8Decode (prepare_json_outgoing_td (TransportData.from_dict d)).2
      = some (dumps d ++ [nl])
    ∧ (dumps d ++ [nl]).getLast? = some nl
    ∧ loads ((dumps d ++ [nl]).dropLast) = .ok d := by
  refine ⟨utf8Decode_utf8Encode _, List.getLast?_concat _, ?_⟩
  rw [List.dropLast_concat]
  exact loads_dumps hwf

/-- Counterexample to claim C8 as stated: the accepted str value
`"{}
"` (valid JSON with a trailing newline) is prepared into the wire
bytes `[123, 125, 10, 10]` — two trailing newlines, not one. -/
theorem trailing_newline_cex :
    prepare_json_outgoing (.pystr (str "\x7b\x7d\n"))
      = .ok (⟨[123, 125, 10], .obj [], str "\x7b\x7d\n"⟩, [123, 125, 10, 10]) := by
  rfl

/-- Claim C8 (corrected): for dict input, `prepare_json_outgoing` emits the
serialized JSON text with exactly one newline, at the end (`dumps` emits
none itself).  For str and bytes input, however, the emitted text is the
input text verbatim plus one more newline — so an accepted input whose
text already ends in a newline produces a frame with two trailing
newlines, against the claim's "no second trailing newline" for every
accepted value. -/
theorem outgoing_newline_amended :
    (∀ kvs : List (Str × JVal),
       prepare_json_outgoing (.dict kvs)
         = .ok (TransportData.from_dict (.obj kvs),
                utf8Encode (dumps (.obj kvs) ++ [nl]))
       ∧ (dumps (.obj kvs) ++ [nl]).count nl = 1)
    ∧ (∀ s td, TransportData.from_str s = .ok td →
         td.as_str = s ∧
         prepare_json_outgoing (.pystr s) = .ok (td, utf8Encode (s ++ [nl])))
    ∧ (∀ b td, TransportData.from_bytes b = .ok td →
         prepare_json_outgoing (.bytes b) = .ok (td, utf8Encode (td.as_str ++ [nl]))) := by
  refine ⟨fun kvs => ⟨rfl, ?_⟩, fun s td h => ?_, fun b td h => ?_⟩
  · rw [List.count_append]
    rw [List.count_eq_zero.mpr (dumps_no_nl _)]
    rfl
  · have hs : td.as_str = s := by
      unfold TransportData.from_str at h
      cases hl : loads s with
      | error e => rw [hl] at h; exact Except.noConfusion h
      | ok d => rw [hl] at h; dsimp only at h; cases h; rfl
    refine ⟨hs, ?_⟩
    unfold prepare_json_outgoing
    simp only [TransportData.from_any]
    rw [h]
    dsimp only
    rw [hs]
  · unfold prepare_json_outgoing
    simp only [TransportData.from_any]
    rw [h]

/-! ## C4 material -/

/-- The async-serial example of the spec: a data frame with no `ack`. -/
def exAsync : JVal :=
  .obj [(str "type", .jstr (str "frame")), (str "frame-type", .jstr (str "data")),
        (str "data", .obj [(str "data", .arr [.int 65])])]

/-- The same data frame with an `ack` key added. -/
def exI2c : JVal :=
  .obj [(str "type", .jstr (str "frame")), (str "frame-type", .jstr (str "data")),
        (str "data", .obj [(str "data", .arr [.int 65]), (str "ack", .int 1)])]

/-- A frame of type `enable`. -/
def exSpi : JVal :=
  .obj [(str "type", .jstr (str "frame")), (str "frame-type", .jstr (str "enable")),
        (str "data", .obj [])]

/-- A message whose `type` is not `frame`. -/
def exNotFrame : JVal := .obj [(str "type", .jstr (str "capture"))]

/-- Claim C4: `determine_analyzer_type` implements the six-step reference
classification — unknown when `decoded['type'] != 'frame'` or
`decoded['data']` is null; for frame-type `data`, `i2c` when the data
contains key `ack` and `async-serial` otherwise; `i2c` for frame-type in
`{address, start, stop}`; `spi` for frame-type in `{enable, disable,
result, error}`; unknown otherwise — and, concretely, the spec's four
example messages classify as async-serial, i2c, spi and unknown. -/
theorem determine_analyzer_type_spec :
    (∀ d t, pyGetItem d (str "type") = .ok t →
        JVal.beq t (.jstr (str "frame")) = false →
        determine_analyzer_type d = .ok none)
    ∧ (∀ d ft, pyGetItem d (str "type") = .ok (.jstr (str "frame")) →
        pyGetItem d (str "frame-type") = .ok ft →
        pyGetItem d (str "data") = .ok .null →
        determine_analyzer_type d = .ok none)
    ∧ (∀ d data, pyGetItem d (str "type") = .ok (.jstr (str "frame")) →
        pyGetItem d (str "frame-type") = .ok (.jstr (str "data")) →
        pyGetItem d (str "data") = .ok data →
        pyContains data (str "ack") = .ok true →
        determine_analyzer_type d = .ok (some (str "i2c")))
    ∧ (∀ d data, pyGetItem d (str "type") = .ok (.jstr (str "frame")) →
        pyGetItem d (str "frame-type") = .ok (.jstr (str "data")) →
        pyGetItem d (str "data") = .ok data →
        pyContains data (str "ack") = .ok false →
        determine_analyzer_type d = .ok (some (str "async-serial")))
    ∧ (∀ d data f, pyGetItem d (str "type") = .ok (.jstr (str "frame")) →
        pyGetItem d (str "frame-type") = .ok (.jstr f) →
        (f = str "address" ∨ f = str "start" ∨ f = str "stop") →
        pyGetItem d (str "data") = .ok data →
        JVal.beq data .null = false →
        determine_analyzer_type d = .ok (some (str "i2c")))
    ∧ (∀ d data f, pyGetItem d (str "type") = .ok (.jstr (str "frame")) →
        pyGetItem d (str "frame-type") = .ok (.jstr f) →
        (f = str "enable" ∨ f = str "disable" ∨ f = str "result" ∨ f = str "error") →
        pyGetItem d (str "data") = .ok data →
        JVal.beq data .null = false →
        determine_analyzer_type d = .ok (some (str "spi")))
    ∧ (∀ d data ft, pyGetItem d (str "type") = .ok (.jstr (str "frame")) →
        pyGetItem d (str "frame-type") = .ok ft →
        pyGetItem d (str "data") = .ok data →
        JVal.beq data .null = false →
        JVal.beq ft (.jstr (str "data")) = false →
        JVal.beq ft (.jstr (str "address")) = false →
        JVal.beq ft (.jstr (str "start")) = false →
        JVal.beq ft (.jstr (str "stop")) = false →
        JVal.beq ft (.jstr (str "enable")) = false →
        JVal.beq ft (.jstr (str "disable")) = false →
        JVal.beq ft (.jstr (str "result")) = false →
        JVal.beq ft (.jstr (str "error")) = false →
        determine_analyzer_type d = .ok none)
    ∧ determine_analyzer_type exAsync = .ok (some (str "async-serial"))
    ∧ determine_analyzer_type exI2c = .ok (some (str "i2c"))
    ∧ determine_analyzer_type exSpi = .ok (some (str "spi"))
    ∧ determine_analyzer_type exNotFrame = .ok none := by
  refine ⟨?_, ?_, ?_, ?_, ?_, ?_, ?_, rfl, rfl, rfl, rfl⟩
  · intro d t ht hb
    simp [determine_analyzer_type, ht, hb]
  · intro d ft ht hft hdata
    simp [determine_analyzer_type, ht, hft, hdata, JVal.beq]
  · intro d data ht hft hdata hack
    simp [determine_analyzer_type, ht, hft, hdata, hack,
      beq_null_false_of_contains data (str "ack") true hack, JVal.beq]
  · intro d data ht hft hdata hack
    simp [determine_analyzer_type, ht, hft, hdata, hack,
      beq_null_false_of_contains data (str "ack") false hack, JVal.beq]
  · intro d data f ht hft hf hdata hnull
    rcases hf with hf | hf | hf <;> subst hf <;>
      simp [determine_analyzer_type, ht, hft, hdata, hnull, JVal.beq,
        show str "address" ≠ str "data" from by decide,
        show str "start" ≠ str "data" from by decide,
        show str "stop" ≠ str "data" from by decide]
  · intro d data f ht hft hf hdata hnull
    rcases hf with hf | hf | hf | hf <;> subst hf <;>
      simp [determine_analyzer_type, ht, hft, hdata, hnull, JVal.beq,
        show str "enable" ≠ str "data" from by decide,
        show str "disable" ≠ str "data" from by decide,
        show str "result" ≠ str "data" from by decide,
        show str "error" ≠ str "data" from by decide,
        show str "enable" ≠ str "address" from by decide,
        show str "disable" ≠ str "address" from by decide,
        show str "result" ≠ str "address" from by decide,
        show str "error" ≠ str "address" from by decide,
        show str "enable" ≠ str "start" from by decide,
        show str "disable" ≠ str "start" from by decide,
        show str "result" ≠ str "start" from by decide,
        show str "error" ≠ str "start" from by decide,
        show str "enable" ≠ str "stop" from by decide,
        show str "disable" ≠ str "stop" from by decide,
        show str "result" ≠ str "stop" from by decide,
        show str "error" ≠ str "stop" from by decide]
  · intro d data ft ht hft hdata hnull h1 h2 h3 h4 h5 h6 h7 h8
    simp [determine_analyzer_type, ht, hft, hdata, hnull, h1, h2, h3, h4, h5, h6, h7, h8,
      JVal.beq]

/-- Claim C3: when one frame-reader pass returns k > 1 completed messages,
`missed_packets` grows by exactly k − 1, the warning is recorded, and
only the last message of the batch is used as the authoritative reply;
when k = 1 the counter is unchanged and that single message is used. -/
theorem missed_packets_accounting (missed : Int) (response : List Str) :
    (response.length = 1 →
       select_response missed response = (missed, .ok (response.headI, false)))
    ∧ (∀ lastMsg, 1 < response.length → response.getLast? = some lastMsg →
       select_response missed response
         = (missed + ((response.length : Int) - 1), .ok (lastMsg, true))) := by
  constructor
  · intro h1
    unfold select_response
    rw [if_pos h1]
  · intro lastMsg hgt hlast
    unfold select_response
    rw [if_neg (by omega), hlast]

/-! ## C9 material -/

/-- Claim C9 (corrected): `decode_async_serial` rewrites `frame-type` to
`text` and sets `data.text` to the `0x`-prefixed two-digit uppercase hex
of the first element of the `data.data` array (255 gives `0xFF`), leaving
every other key unchanged — but it operates on the message itself, not on
a copy: the mutated dict is the caller's value, and the handler's stored
`current_incoming` sees the mutation through its aliased `as_dict`. -/
theorem decode_async_serial_effect :
    (∀ (kvs dk : List (Str × JVal)) (n : Int) (xs : List JVal),
      alistGet? kvs (str "data") = some (.obj dk) →
      alistGet? dk (str "data") = some (.arr (.int n :: xs)) →
      decode_async_serial (.obj kvs)
        = .ok (.obj (dictInsert (dictInsert kvs (str "frame-type") (.jstr (str "text")))
            (str "data") (.obj (dictInsert dk (str "text") (.jstr (formatHex02 n)))))))
    ∧ (∀ (kvs : List (Str × JVal)) (k : Str), k ≠ str "frame-type" → k ≠ str "data" →
        ∀ (v : JVal),
        alistGet? (dictInsert (dictInsert kvs (str "frame-type") (.jstr (str "text")))
            (str "data") v) k = alistGet? kvs k)
    ∧ formatHex02 255 = str "0xFF"
    ∧ (∀ st td, ((respondAsyncSerial st td).1).current_incoming
        = some { td with as_dict := (decode_async_serial_steps td.as_dict).1 }) := by
  refine ⟨?_, ?_, rfl, ?_⟩
  · intro kvs dk n xs hd hdd
    unfold decode_async_serial decode_async_serial_steps
    simp only [pySetItem, pyGetItem, pyIndex0, jvalAsInt]
    rw [alistGet?_dictInsert_ne _ _ _ _ (by decide), hd]
    dsimp only
    rw [hdd]
  · intro kvs k h1 h2 v
    rw [alistGet?_dictInsert_ne _ _ _ _ h2, alistGet?_dictInsert_ne _ _ _ _ h1]
  · intro st td
    unfold respondAsyncSerial
    rcases h : decode_async_serial_steps td.as_dict with ⟨d2, oe⟩
    cases oe <;> rfl

/-- The async-serial data frame the counterexamples and witnesses handle. -/
def recvAsync : Str :=
  str "\x7b\"type\":\"frame\",\"frame-type\":\"data\",\"data\":\x7b\"data\":[255]\x7d\x7d"

/-- The `frame-type` entry of the dict view of the handler's stored
incoming message. -/
def incoming_dict_frame_type (st : DState) : Except PyErr JVal :=
  match st.current_incoming with
  | some td => pyGetItem td.as_dict (str "frame-type")
  | none => .error .keyError

/-- The `frame-type` entry obtained by re-parsing the text view of the
handler's stored incoming message. -/
def incoming_reparsed_frame_type (st : DState) : Except PyErr JVal :=
  match st.current_incoming with
  | some td =>
    match loads td.as_str with
    | .ok d => pyGetItem d (str "frame-type")
    | .error e => .error e
  | none => .error .keyError

/-- Counterexample to claim C9's "operates on a copy": after handling an
async-serial message, the handler's stored incoming message has
`frame-type` `text` in its dict view while re-parsing its own unchanged
text view yields `data` — the dict the caller obtained from parsing was
mutated in place. -/
theorem decode_async_serial_in_place_cex :
    incoming_dict_frame_type ((handle_incoming_response DState.init recvAsync).1)
      = .ok (.jstr (str "text"))
    ∧ incoming_reparsed_frame_type ((handle_incoming_response DState.init recvAsync).1)
      = .ok (.jstr (str "data")) :=
  ⟨rfl, rfl⟩

/-! ## Dispatch shape of `handle_incoming_response` -/

theorem handle_err_parse (st : DState) (recv : Str) (e : PyErr)
    (hp : TransportData.from_str recv = .error e) :
    handle_incoming_response st recv = (st, .error e) := by
  unfold handle_incoming_response
  rw [hp]

theorem handle_echo (st : DState) (recv : Str) (td : TransportData)
    (hp : TransportData.from_str recv = .ok td)
    (hd : determine_analyzer_type td.as_dict = .ok none) :
    handle_incoming_response st recv
      = respondEcho { st with current_incoming := some td } td.as_dict := by
  unfold handle_incoming_response
  rw [hp]
  dsimp only
  rw [hd]

theorem handle_dispatch (st : DState) (recv : Str) (td : TransportData) (det : Str)
    (hp : TransportData.from_str recv = .ok td)
    (hd : determine_analyzer_type td.as_dict = .ok (some det)) :
    handle_incoming_response st recv =
      (if st.analyzer_type.getD det = str "async-serial"
       then respondAsyncSerial
         ⟨some (st.analyzer_type.getD det), some td, st.current_outgoing⟩ td
       else respondFallback
         ⟨some (st.analyzer_type.getD det), some td, st.current_outgoing⟩ td.as_dict) := by
  unfold handle_incoming_response
  rw [hp]
  dsimp only
  rw [hd]

theorem respondEcho_analyzer (st : DState) (d : JVal) :
    ((respondEcho st d).1).analyzer_type = st.analyzer_type := rfl

theorem respondAsyncSerial_analyzer (st : DState) (td : TransportData) :
    ((respondAsyncSerial st td).1).analyzer_type = st.analyzer_type := by
  unfold respondAsyncSerial
  rcases h : decode_async_serial_steps td.as_dict with ⟨d2, oe⟩
  cases oe <;> rfl

theorem respondFallback_analyzer (st : DState) (d : JVal) :
    ((respondFallback st d).1).analyzer_type = st.analyzer_type := by
  unfold respondFallback
  dsimp only
  cases h : TransportData.from_bytes
      (utf8Encode ((TransportData.from_dict d).as_str ++ [nl])) <;> rfl

/-- Claim C1: the `DefaultResponder`'s `analyzer_type` (and likewise the
socketclient handler's) is monotone-sticky: it starts `None`, is assigned
at most once per session — to the first non-unknown result of
`determine_analyzer_type` over the handled messages — is never changed by
any later call, and every later message whose own classification is
non-unknown has its decode function looked up under the stored sticky
type, not under the message's own classification. -/
theorem analyzer_type_sticky :
    DState.init.analyzer_type = none
    ∧ (∀ st a recv, st.analyzer_type = some a →
        ((handle_incoming_response st recv).1).analyzer_type = some a)
    ∧ (∀ st recv td det, st.analyzer_type = none →
        TransportData.from_str recv = .ok td →
        determine_analyzer_type td.as_dict = .ok (some det) →
        ((handle_incoming_response st recv).1).analyzer_type = some det)
    ∧ (∀ st recv td, st.analyzer_type = none →
        TransportData.from_str recv = .ok td →
        (∀ det, determine_analyzer_type td.as_dict ≠ .ok (some det)) →
        ((handle_incoming_response st recv).1).analyzer_type = none)
    ∧ (∀ st a recv td det, st.analyzer_type = some a →
        TransportData.from_str recv = .ok td →
        determine_analyzer_type td.as_dict = .ok (some det) →
        handle_incoming_response st recv =
          (if a = str "async-serial"
           then respondAsyncSerial ⟨some a, some td, st.current_outgoing⟩ td
           else respondFallback ⟨some a, some td, st.current_outgoing⟩ td.as_dict))
    ∧ (∀ a recv, (sc_handle_response (some a) recv).1 = some a)
    ∧ (∀ a recv decoded det, loads recv = .ok decoded →
        determine_analyzer_type decoded = .ok (some det) →
        sc_handle_response (some a) recv
          = (some a,
             if a = str "async-serial"
             then (match decode_async_serial decoded with
                   | .error e => .error e
                   | .ok r => .ok (some (utf8Encode (dumps r ++ [nl]))))
             else .ok (some (utf8Encode (dumps decoded ++ [nl]))))) := by
  refine ⟨rfl, ?_, ?_, ?_, ?_, ?_, ?_⟩
  · intro st a recv ha
    cases hp : TransportData.from_str recv with
    | error e => rw [handle_err_parse st recv e hp]; exact ha
    | ok td =>
      cases hd : determine_analyzer_type td.as_dict with
      | error e =>
        unfold handle_incoming_response
        rw [hp]
        dsimp only
        rw [hd]
        exact ha
      | ok o =>
        cases o with
        | none => rw [handle_echo st recv td hp hd, respondEcho_analyzer]; exact ha
        | some det =>
          rw [handle_dispatch st recv td det hp hd]
          split
          · rw [respondAsyncSerial_analyzer]
            rw [ha, Option.getD_some]
          · rw [respondFallback_analyzer]
            rw [ha, Option.getD_some]
  · intro st recv td det h0 hp hd
    rw [handle_dispatch st recv td det hp hd]
    split
    · rw [respondAsyncSerial_analyzer]
      rw [h0]
      rfl
    · rw [respondFallback_analyzer]
      rw [h0]
      rfl
  · intro st recv td h0 hp hd
    cases hdet : determine_analyzer_type td.as_dict with
    | error e =>
      unfold handle_incoming_response
      rw [hp]
      dsimp only
      rw [hdet]
      exact h0
    | ok o =>
      cases o with
      | none => rw [handle_echo st recv td hp hdet, respondEcho_analyzer]; exact h0
      | some det => exact absurd hdet (hd det)
  · intro st a recv td det ha hp hd
    rw [handle_dispatch st recv td det hp hd, ha, Option.getD_some]
  · intro a recv
    unfold sc_handle_response
    cases h1 : loads recv with
    | error e => rfl
    | ok decoded =>
      dsimp only
      cases h2 : determine_analyzer_type decoded with
      | error e => rfl
      | ok o =>
        cases o with
        | none => rfl
        | some det =>
          dsimp only [Option.getD_some]
          split
          · cases h3 : decode_async_serial decoded <;> rfl
          · rfl
  · intro a recv decoded det h1 h2
    unfold sc_handle_response
    rw [h1]
    dsimp only
    rw [h2]
    dsimp only [Option.getD_some]
    by_cases ha : a = str "async-serial"
    · rw [if_pos ha, if_pos ha]
      cases h3 : decode_async_serial decoded <;> rfl
    · rw [if_neg ha, if_neg ha]

/-! ## C5 material -/

/-- Claim C5 (corrected): after the sticky `analyzer_type` is `async-serial`,
a message that would individually classify as `i2c` is still handed to
the async-serial decode function, not reclassified — but when that decode
raises, the exception propagates out of `handle_incoming_response`: the
message is not echoed back.  (The original claim's "echoed if decode
fails" does not hold; the code has no handler around the decode call.) -/
theorem sticky_decode_failure_propagates (st : DState) (recv : Str)
    (td : TransportData) (det : Str)
    (ha : st.analyzer_type = some (str "async-serial"))
    (hp : TransportData.from_str recv = .ok td)
    (hd : determine_analyzer_type td.as_dict = .ok (some det)) :
    handle_incoming_response st recv =
      respondAsyncSerial ⟨some (str "async-serial"), some td, st.current_outgoing⟩ td
    ∧ ∀ d2 e, decode_async_serial_steps td.as_dict = (d2, some e) →
        (handle_incoming_response st recv).2 = .error e := by
  have h1 : handle_incoming_response st recv =
      respondAsyncSerial ⟨some (str "async-serial"), some td, st.current_outgoing⟩ td := by
    rw [handle_dispatch st recv td det hp hd, ha, Option.getD_some, if_pos rfl]
  refine ⟨h1, ?_⟩
  intro d2 e hsteps
  rw [h1]
  unfold respondAsyncSerial
  rw [hsteps]

/-- The i2c-classified ack message the counterexample handles. -/
def recvAck : Str :=
  str "\x7b\"type\":\"frame\",\"frame-type\":\"data\",\"data\":\x7b\"ack\":1\x7d\x7d"

/-- Counterexample to claim C5 as stated: with the sticky type
`async-serial`, handling an i2c-style ack message whose data has no
`data` key raises `KeyError` out of the handler — the result is an
exception, not an echo of the message. -/
theorem decode_failure_not_echoed_cex :
    (handle_incoming_response ⟨some (str "async-serial"), none, none⟩ recvAck).2
      = .error .keyError := rfl

/-- Claim C10: whenever `DefaultResponder.handle_incoming_response` (likewise
socketclient's `ResponseHandler.handle_response`) returns normally, the
result is a present bytes reply — the `None` reply the `ResponseHandler`
contract permits (and `NullResponder` uses) never occurs. -/
theorem default_responder_always_replies :
    (∀ st recv st2 r, handle_incoming_response st recv = (st2, .ok r) →
        ∃ bs, r = some bs)
    ∧ (∀ aty recv a2 r, sc_handle_response aty recv = (a2, .ok r) →
        ∃ bs, r = some bs)
    ∧ ∀ recv, null_responder_handle recv = none := by
  refine ⟨?_, ?_, fun recv => rfl⟩
  · intro st recv st2 r h
    unfold handle_incoming_response respondEcho respondAsyncSerial respondFallback at h
    dsimp only at h
    repeat' split at h
    all_goals simp only [Prod.mk.injEq] at h
    all_goals first
      | exact Except.noConfusion h.2
      | exact ⟨_, (Except.ok.inj h.2).symm⟩
  · intro aty recv a2 r h
    unfold sc_handle_response at h
    dsimp only at h
    repeat' split at h
    all_goals simp only [Prod.mk.injEq] at h
    all_goals first
      | exact Except.noConfusion h.2
      | exact ⟨_, (Except.ok.inj h.2).symm⟩

/-! ## Facts about the frame reader -/

theorem splitNl_cons (c : Char) (cs : Str) :
    splitNl (c :: cs)
      = if c = nl then [] :: splitNl cs
        else match splitNl cs with
          | [] => [[c]]
          | p :: ps => (c :: p) :: ps := rfl

theorem splitNl_ne_nil : ∀ s : Str, splitNl s ≠ []
  | [] => by simp [splitNl]
  | c :: cs => by
    unfold splitNl
    by_cases hc : c = nl
    · rw [if_pos hc]; simp
    · rw [if_neg hc]
      cases h : splitNl cs <;> simp

theorem splitNl_no_nl (s : Str) (h : nl ∉ s) : splitNl s = [s] := by
  induction s with
  | nil => rfl
  | cons c cs ih =>
    have hc : ¬ (c = nl) := fun e => h (by rw [e]; exact List.mem_cons_self _ _)
    have hcs : nl ∉ cs := fun m => h (List.mem_cons_of_mem _ m)
    unfold splitNl
    rw [if_neg hc, ih hcs]

theorem splitNl_append_left : ∀ a : Str, nl ∉ a → ∀ b : Str,
    splitNl (a ++ b) = (a ++ (splitNl b).headI) :: (splitNl b).tail := by
  intro a
  induction a with
  | nil =>
    intro _ b
    cases hb : splitNl b with
    | nil => exact absurd hb (splitNl_ne_nil b)
    | cons p ps => simp [hb]
  | cons c a' ih =>
    intro h b
    have hc : ¬ (c = nl) := fun e => h (by rw [e]; exact List.mem_cons_self _ _)
    have ha' : nl ∉ a' := fun m => h (List.mem_cons_of_mem _ m)
    show splitNl (c :: (a' ++ b)) = _
    rw [splitNl_cons c (a' ++ b), if_neg hc, ih ha' b]
    simp [List.cons_append]

theorem splitNl_last_no_nl (s : Str) : nl ∉ (splitNl s).getLastD [] := by
  induction s with
  | nil => simp [splitNl]
  | cons c cs ih =>
    unfold splitNl
    by_cases hc : c = nl
    · rw [if_pos hc, List.getLastD_cons]
      exact ih
    · rw [if_neg hc]
      cases h : splitNl cs with
      | nil => exact absurd h (splitNl_ne_nil cs)
      | cons p ps =>
        rw [h] at ih
        cases ps with
        | nil =>
          simp only [List.getLastD_cons, List.getLastD_nil] at ih ⊢
          intro hm
          rcases List.mem_cons.mp hm with e | m
          · exact hc e.symm
          · exact ih m
        | cons q qs =>
          simp only [List.getLastD_cons] at ih ⊢
          exact ih

theorem splitNl_append (T F : Str) :
    splitNl (T ++ F)
      = (splitNl T).dropLast ++ splitNl ((splitNl T).getLastD [] ++ F) := by
  induction T with
  | nil => simp [splitNl]
  | cons c T' ih =>
    show splitNl (c :: (T' ++ F)) = _
    rw [splitNl_cons c (T' ++ F), splitNl_cons c T']
    by_cases hc : c = nl
    · rw [if_pos hc, if_pos hc]
      rw [List.dropLast_cons_of_ne_nil (splitNl_ne_nil T'), List.getLastD_cons, ih]
      simp [List.cons_append]
    · rw [if_neg hc, if_neg hc]
      cases h : splitNl T' with
      | nil => exact absurd h (splitNl_ne_nil T')
      | cons p ps =>
        rw [ih, h]
        cases ps with
        | nil =>
          have hp : nl ∉ p := by
            have hlast := splitNl_last_no_nl T'
            rw [h] at hlast
            simpa using hlast
          have hcp : nl ∉ c :: p := by
            intro hm
            rcases List.mem_cons.mp hm with e | m
            · exact hc e.symm
            · exact hp m
          dsimp only
          rw [show [p].dropLast = ([] : List Str) from rfl,
              show ([p].getLastD []) = p from rfl,
              show [c :: p].dropLast = ([] : List Str) from rfl,
              show ([c :: p].getLastD []) = c :: p from rfl,
              List.nil_append, List.nil_append,
              splitNl_append_left p hp F, splitNl_append_left (c :: p) hcp F]
          dsimp only
          rw [List.cons_append]
        | cons q qs =>
          simp only [List.getLastD_cons, List.dropLast_cons₂, List.cons_append]

theorem rx_nil (acc : Str) : rx_data_until_newline acc [] = .inr acc := rfl

theorem rx_cons (acc data : Str) (rest : List Str) :
    rx_data_until_newline acc (data :: rest)
      = if nl ∈ data then
          .inl ((((acc ++ (splitNl data).headI) :: (splitNl data).tail).dropLast,
                 ((acc ++ (splitNl data).headI) :: (splitNl data).tail).getLastD []), rest)
        else rx_data_until_newline (acc ++ data) rest := rfl

theorem rxThread_canonical (fuel : Nat) :
    ∀ (chunks : List Str) (acc : Str), nl ∉ acc → chunks.length < fuel →
    rxThread fuel acc chunks
      = ((splitNl (acc ++ chunks.flatten)).dropLast,
         (splitNl (acc ++ chunks.flatten)).getLastD []) := by
  induction fuel with
  | zero => intro chunks acc _ hlen; exact absurd hlen (Nat.not_lt_zero _)
  | succ fuel ih =>
    intro chunks
    induction chunks with
    | nil =>
      intro acc hacc _
      rw [show acc ++ ([] : List Str).flatten = acc by simp, splitNl_no_nl acc hacc]
      rfl
    | cons data rest ihc =>
      intro acc hacc hlen
      by_cases hnl : nl ∈ data
      · unfold rxThread
        rw [rx_cons, if_pos hnl]
        dsimp only
        rw [← splitNl_append_left acc hacc data]
        rw [ih rest ((splitNl (acc ++ data)).getLastD []) (splitNl_last_no_nl _)
            (by simpa using Nat.lt_of_succ_lt_succ (by simpa using hlen))]
        rw [List.flatten_cons, ← List.append_assoc]
        rw [splitNl_append (acc ++ data) rest.flatten]
        rw [List.dropLast_append_of_ne_nil _ (splitNl_ne_nil _)]
        have hlast : ((splitNl (acc ++ data)).dropLast
            ++ splitNl ((splitNl (acc ++ data)).getLastD [] ++ rest.flatten)).getLastD []
            = (splitNl ((splitNl (acc ++ data)).getLastD [] ++ rest.flatten)).getLastD [] := by
          simp only [List.getLastD_eq_getLast?]
          rw [List.getLast?_append_of_ne_nil _ (splitNl_ne_nil _)]
        rw [hlast]
      · have hnot : nl ∉ acc ++ data := by
          intro hm
          rcases List.mem_append.mp hm with m | m
          · exact hacc m
          · exact hnl m
        have hstep : rxThread (fuel + 1) acc (data :: rest)
            = rxThread (fuel + 1) (acc ++ data) rest := by
          unfold rxThread
          rw [rx_cons, if_neg hnl]
        rw [hstep, ihc (acc ++ data) hnot
          (by exact Nat.lt_of_le_of_lt (Nat.le_succ _) (by simpa using hlen))]
        rw [List.flatten_cons, ← List.append_assoc]

/-- Claim C2: for the stream text `{"a":1}
{"b":2}
{"c":` delivered to
`rx_data_until_newline` (threading each returned residual into the next
call) split into chunks at arbitrary points, the completed messages are
always exactly `{"a":1}` and `{"b":2}` in that order with final residual
`{"c":`, for every choice of split points, with no message lost or
duplicated. -/
theorem frame_reader_split_invariance (chunks : List Str)
    (h : chunks.flatten = str "\x7b\"a\":1\x7d\n\x7b\"b\":2\x7d\n\x7b\"c\":") :
    rxThread (chunks.length + 1) [] chunks
      = ([str "\x7b\"a\":1\x7d", str "\x7b\"b\":2\x7d"], str "\x7b\"c\":") := by
  rw [rxThread_canonical (chunks.length + 1) chunks [] (by simp) (by omega)]
  rw [List.nil_append, h]
  rfl

/-! ## Concrete instances for the witnesses -/

/-- The parsed form of `recvAsync`. -/
def kvsAsync : List (Str × JVal) :=
  [(str "type", .jstr (str "frame")), (str "frame-type", .jstr (str "data")),
   (str "data", .obj [(str "data", .arr [.int 255])])]

def dAsync : JVal := .obj kvsAsync

def tdAsync : TransportData := ⟨utf8Encode recvAsync, dAsync, recvAsync⟩

/-- The parsed form of `recvAck`. -/
def dAck : JVal :=
  .obj [(str "type", .jstr (str "frame")), (str "frame-type", .jstr (str "data")),
        (str "data", .obj [(str "ack", .int 1)])]

def tdAck : TransportData := ⟨utf8Encode recvAck, dAck, recvAck⟩

/-- Witness for C1 at concrete inputs: a sticky `i2c` state survives an async-serial message, and the initial state adopts the first classification. -/
theorem analyzer_type_sticky_witness :
    ((handle_incoming_response ⟨some (str "i2c"), none, none⟩ recvAsync).1).analyzer_type
      = some (str "i2c")
    ∧ ((handle_incoming_response DState.init recvAsync).1).analyzer_type
      = some (str "async-serial") :=
  ⟨analyzer_type_sticky.2.1 ⟨some (str "i2c"), none, none⟩ (str "i2c") recvAsync rfl,
   analyzer_type_sticky.2.2.1 DState.init recvAsync tdAsync (str "async-serial") rfl rfl rfl⟩

/-- Witness for C2 at one concrete split of the stream into two chunks. -/
theorem frame_reader_split_invariance_witness :
    ([str "\x7b\"a\":1\x7d\n\x7b\"b", str "\":2\x7d\n\x7b\"c\":"] : List Str).flatten
      = str "\x7b\"a\":1\x7d\n\x7b\"b\":2\x7d\n\x7b\"c\":"
    ∧ rxThread (([str "\x7b\"a\":1\x7d\n\x7b\"b", str "\":2\x7d\n\x7b\"c\":"] : List Str).length + 1)
        [] [str "\x7b\"a\":1\x7d\n\x7b\"b", str "\":2\x7d\n\x7b\"c\":"]
      = ([str "\x7b\"a\":1\x7d", str "\x7b\"b\":2\x7d"], str "\x7b\"c\":") :=
  ⟨rfl,
   frame_reader_split_invariance [str "\x7b\"a\":1\x7d\n\x7b\"b", str "\":2\x7d\n\x7b\"c\":"] rfl⟩

/-- Witness for C3 at a singleton and at a two-message batch. -/
theorem missed_packets_accounting_witness :
    select_response 7 [str "m1"] = (7, .ok (str "m1", false))
    ∧ select_response 7 [str "m1", str "m2"] = (8, .ok (str "m2", true)) :=
  ⟨(missed_packets_accounting 7 [str "m1"]).1 rfl,
   (missed_packets_accounting 7 [str "m1", str "m2"]).2 (str "m2") (by decide) rfl⟩

/-- Witness for C4: the not-a-frame clause at a concrete message. -/
theorem determine_analyzer_type_spec_witness :
    pyGetItem exNotFrame (str "type") = .ok (.jstr (str "capture"))
    ∧ determine_analyzer_type exNotFrame = .ok none :=
  ⟨rfl, determine_analyzer_type_spec.1 exNotFrame (.jstr (str "capture")) rfl rfl⟩

/-- Witness for C5 at the concrete ack message under a sticky async-serial state. -/
theorem sticky_decode_failure_propagates_witness :
    handle_incoming_response ⟨some (str "async-serial"), none, none⟩ recvAck
      = respondAsyncSerial ⟨some (str "async-serial"), some tdAck, none⟩ tdAck
    ∧ (handle_incoming_response ⟨some (str "async-serial"), none, none⟩ recvAck).2
      = .error .keyError :=
  ⟨(sticky_decode_failure_propagates ⟨some (str "async-serial"), none, none⟩ recvAck
      tdAck (str "i2c") rfl rfl rfl).1,
   (sticky_decode_failure_propagates ⟨some (str "async-serial"), none, none⟩ recvAck
      tdAck (str "i2c") rfl rfl rfl).2
     (.obj [(str "type", .jstr (str "frame")), (str "frame-type", .jstr (str "text")),
            (str "data", .obj [(str "ack", .int 1)])]) .keyError rfl⟩

/-- Witness for C6 at a concrete one-key dict. -/
theorem transport_data_views_consistent_witness :
    TransportData.from_any (.dict [(str "a", .int 1)])
      = .ok (TransportData.from_dict (.obj [(str "a", .int 1)]))
    ∧ utf8Decode (TransportData.from_dict (.obj [(str "a", .int 1)])).as_bytes
        = some (TransportData.from_dict (.obj [(str "a", .int 1)])).as_str
    ∧ loads (TransportData.from_dict (.obj [(str "a", .int 1)])).as_str
        = .ok (TransportData.from_dict (.obj [(str "a", .int 1)])).as_dict :=
  ⟨rfl,
   transport_data_views_consistent (.dict [(str "a", .int 1)])
     (TransportData.from_dict (.obj [(str "a", .int 1)]))
     (fun kvs hk => by cases hk; rfl) rfl⟩

/-- Witness for C7 at a concrete one-key dict. -/
theorem outgoing_roundtrip_witness :
    wfJ (.obj [(str "a", .int 1)]) = true
    ∧ (utf8Decode (prepare_json_outgoing_td
          (TransportData.from_dict (.obj [(str "a", .int 1)]))).2
        = some (dumps (.obj [(str "a", .int 1)]) ++ [nl])
      ∧ (dumps (.obj [(str "a", .int 1)]) ++ [nl]).getLast? = some nl
      ∧ loads ((dumps (.obj [(str "a", .int 1)]) ++ [nl]).dropLast)
          = .ok (.obj [(str "a", .int 1)])) :=
  ⟨rfl, outgoing_roundtrip (.obj [(str "a", .int 1)]) rfl⟩

/-- Witness for C8 (corrected) at a concrete dict and a concrete str input. -/
theorem outgoing_newline_amended_witness :
    (prepare_json_outgoing (.dict [(str "a", .int 1)])
       = .ok (TransportData.from_dict (.obj [(str "a", .int 1)]),
              utf8Encode (dumps (.obj [(str "a", .int 1)]) ++ [nl]))
     ∧ (dumps (.obj [(str "a", .int 1)]) ++ [nl]).count nl = 1)
    ∧ (TransportData.from_str (str "0") = .ok ⟨[48], .int 0, str "0"⟩
       ∧ ((⟨[48], .int 0, str "0"⟩ : TransportData).as_str = str "0"
          ∧ prepare_json_outgoing (.pystr (str "0"))
              = .ok (⟨[48], .int 0, str "0"⟩, utf8Encode (str "0" ++ [nl])))) :=
  ⟨outgoing_newline_amended.1 [(str "a", .int 1)],
   ⟨rfl, outgoing_newline_amended.2.1 (str "0") ⟨[48], .int 0, str "0"⟩ rfl⟩⟩

/-- Witness for C9 (corrected) at the concrete `[255]` message. -/
theorem decode_async_serial_effect_witness :
    alistGet? kvsAsync (str "data") = some (.obj [(str "data", .arr [.int 255])])
    ∧ decode_async_serial (.obj kvsAsync)
        = .ok (.obj (dictInsert (dictInsert kvsAsync
            (str "frame-type") (.jstr (str "text")))
            (str "data") (.obj (dictInsert [(str "data", .arr [.int 255])]
              (str "text") (.jstr (formatHex02 255)))))) :=
  ⟨rfl,
   decode_async_serial_effect.1 kvsAsync [(str "data", .arr [.int 255])] 255 [] rfl rfl⟩

/-- Witness for C10 at a concrete unclassified message. -/
theorem default_responder_always_replies_witness :
    (handle_incoming_response DState.init (str "\x7b\"type\":0\x7d")).2
      = .ok (some [123, 34, 116, 121, 112, 101, 34, 58, 32, 48, 125, 10])
    ∧ ∃ bs, (some [123, 34, 116, 121, 112, 101, 34, 58, 32, 48, 125, 10]
        : Option (List Nat)) = some bs :=
  ⟨rfl,
   default_responder_always_replies.1 DState.init (str "\x7b\"type\":0\x7d")
     (handle_incoming_response DState.init (str "\x7b\"type\":0\x7d")).1
     (some [123, 34, 116, 121, 112, 101, 34, 58, 32, 48, 125, 10]) rfl⟩

end Saleae
